import Mathlib

/-!
Shallow embedding of the unduck classification engine (src/index.js).

Values of the JavaScript object graph are modelled with explicit heap
addresses so that object identity (used by the source for cycle
detection, memoization and strict equality) is preserved.  Numbers are
modelled as integers; the floating-point NaN caveat noted in the source
(`TODO: NaN` near the literal-value check) is outside this model.
User-supplied hook functions (`toConstructorArguments`, `convert`) are
modelled as pure Lean functions.
-/

namespace Unduck

/-- Primitive JavaScript values.  `null` and `undefined` are primitives
here; functions are treated as opaque primitives too since the source
never recurses into them (`typeof x !== 'object'`). -/
inductive Prim where
  | num (n : Int)
  | str (s : String)
  | boolean (b : Bool)
  | jsNull
  | jsUndefined
  | fnRef (id : Nat)
  deriving DecidableEq, Repr

/-- A JavaScript value: a primitive or a reference to a heap node.
Strict equality (`===`) on compound values is address equality. -/
inductive JVal where
  | prim (p : Prim)
  | ref (a : Nat)
  deriving DecidableEq, Repr

/-- Heap nodes: arrays, plain objects (bags of properties) and class
instances (which the classifier treats as opaque and never recurses
into).  Array entries are keyed by their own property names, mirroring
the source's use of getOwnPropertyNames over arrays.  Keys are strings;
symbol keys behave like extra string keys for every loop the claims
touch. -/
inductive HNode where
  | arrNode (entries : List (String × JVal))
  | objNode (entries : List (String × JVal))
  | instNode (ctorId : Nat) (args : List JVal)
  deriving DecidableEq, Repr

/-- The heap: an association list from addresses to nodes plus the next
fresh address.  Input graphs live at addresses below `next`; the
classifier allocates at `next` and above. -/
structure Heap where
  nodes : List (Nat × HNode)
  next : Nat
  deriving Repr

def heapGet (h : Heap) (a : Nat) : Option HNode :=
  match h.nodes.find? (fun kv => kv.1 = a) with
  | some kv => some kv.2
  | none => none

def heapSet (h : Heap) (a : Nat) (v : HNode) : Heap :=
  { h with nodes := h.nodes.map (fun kv => if kv.1 = a then (a, v) else kv) }

def heapAlloc (h : Heap) (v : HNode) : Heap × Nat :=
  ({ nodes := (h.next, v) :: h.nodes, next := h.next + 1 }, h.next)

/-- A bag of properties: ordered key/value pairs, keys unique by
construction (mirrors a prototype-less scratch object). -/
abbrev Bag := List (String × JVal)

def bagHas (b : Bag) (k : String) : Bool :=
  b.any (fun kv => kv.1 = k)

def bagGetD (b : Bag) (k : String) (d : JVal) : JVal :=
  match b.find? (fun kv => kv.1 = k) with
  | some kv => kv.2
  | none => d

/-- Assignment `obj[k] = v` on a bag: replaces the existing entry in
place or appends a new one, as JS property assignment does. -/
def bagSet (b : Bag) (k : String) (v : JVal) : Bag :=
  if bagHas b k then b.map (fun kv => if kv.1 = k then (k, v) else kv)
  else b ++ [(k, v)]

/-- The result of the `typeof` operator on our value model. -/
def typeofVal : JVal → String
  | .prim (.num _) => "number"
  | .prim (.str _) => "string"
  | .prim (.boolean _) => "boolean"
  | .prim .jsNull => "object"
  | .prim .jsUndefined => "undefined"
  | .prim (.fnRef _) => "function"
  | .ref _ => "object"

/-- JavaScript truthiness, used by the `value && value instanceof type`
guard in the generated convert function. -/
def truthy : JVal → Bool
  | .prim (.num n) => n != 0
  | .prim (.str s) => s ≠ ""
  | .prim (.boolean b) => b
  | .prim .jsNull => false
  | .prim .jsUndefined => false
  | .prim (.fnRef _) => true
  | .ref _ => true

/-- Strict equality `===`.  Compound values compare by heap address,
primitives structurally.  (NaN, which is not strict-equal to itself in
JS, does not exist in the Int-based number model.) -/
def jsStrictEq (a b : JVal) : Bool := a = b

/-- The `value instanceof C` test: true only for class instances whose
constructor id matches (prototype-chain inheritance is not modelled;
the source's own TODO notes Array and similar cases are unhandled). -/
def instanceOfTest (h : Heap) (v : JVal) (c : Nat) : Bool :=
  match v with
  | .ref a =>
      match heapGet h a with
      | some (.instNode cid _) => cid = c
      | _ => false
  | .prim _ => false

/-! ### Shape descriptor normalizer (duckTypeMetadataMaker) -/

/-- A raw `type` constraint: the source accepts a string (compared with
the result of `typeof`) or a function (used with `instanceof`); any
other raw value is nulled out before this point. -/
inductive TypeTag where
  | primTag (s : String)
  | ctorTag (c : Nat)
  deriving DecidableEq, Repr

/-- A user `convert` hook: arguments are the value, the trust flag and
the user context; a `none` result models returning the notApplicable
sentinel. -/
abbrev ConvertFn := JVal → Bool → JVal → Option JVal

/-- A user `toConstructorArguments` hook: arguments are the processed
bag, the trust flag and the user context; `some args` models returning
an Array, `none` models any non-Array result (a veto). -/
abbrev ToCtorArgsFn := Bag → Bool → JVal → Option (List JVal)

/-- A raw property descriptor as supplied to `withTypes`.  Each field is
`none` when the descriptor lacks that own property.  `required`,
`recurse` and `trusted` carry the raw value, which the source compares
with `=== true`.  A non-function raw `convert` and a `type` that is
neither string nor function are nulled out by the source before use and
are modelled as `none` here. -/
structure RawProperty where
  required : Option JVal
  typeT : Option TypeTag
  valueV : Option JVal
  defaultV : Option JVal
  recurse : Option JVal
  trustedT : Option JVal
  innocuous : Option JVal
  convert : Option ConvertFn

/-- A raw duck type description.  `classTypeId` is the identity of the
constructor function, `className` its `.name`.  The three mandatory
members (classType, properties, toConstructorArguments) are present by
typing; the source's eager checks for their absence are registration
errors outside this model. -/
structure RawDuckType where
  classTypeId : Nat
  className : String
  props : List (String × RawProperty)
  toConstructorArguments : ToCtorArgsFn

/-- The JS boolean literal true, used for the source's `=== true`
comparisons on raw flags. -/
def jsTrue : JVal := .prim (.boolean true)

/-- Normalized per-property metadata (the `property` record built by
makePropertyMetadata, with the generated convert closure's captured
configuration stored as data instead of a closure). -/
structure PropMeta where
  hasDefault : Bool
  defaultVal : JVal
  required : Bool
  hasValue : Bool
  requiredValue : JVal
  typeT : Option TypeTag
  requireTrusted : Bool
  innocuous : JVal
  rawConvert : Option ConvertFn

/-- Whether makePropertyMetadata builds the guarded convert closure for
this property (source: `requireTrusted || type || requiresValue`). -/
def PropMeta.guarded (p : PropMeta) : Bool :=
  p.requireTrusted || p.typeT.isSome || p.hasValue

/-- Whether the property ends up with any convert function at all, i.e.
whether its key lands in `convertKeys` (source: guarded closure, else a
bare raw convert, else nothing). -/
def PropMeta.hasConvert (p : PropMeta) : Bool :=
  p.guarded || p.rawConvert.isSome

/-- Normalization of one raw property descriptor, mirroring the body of
makePropertyMetadata.  The `__proto__` rejection is handled by the
caller, which sees the key. -/
def makePropMeta (raw : RawProperty) : PropMeta :=
  let hasDefault := raw.defaultV.isSome
  let defaultValue := match raw.defaultV with
    | some v => v
    | none => .prim .jsNull
  let required := match raw.required with
    | some v => jsStrictEq v jsTrue
    | none => !hasDefault
  let hasInnocuous := raw.innocuous.isSome
  let requireTrusted := match raw.trustedT with
    | some v => jsStrictEq v jsTrue
    | none => hasInnocuous
  let requiresValue := raw.valueV.isSome
  let requiredValue := match raw.valueV with
    | some v => v
    | none => .prim (.boolean false)
  let innocuous := match raw.innocuous with
    | some v => v
    | none => defaultValue
  { hasDefault := hasDefault
    defaultVal := defaultValue
    required := required
    hasValue := requiresValue
    requiredValue := requiredValue
    typeT := raw.typeT
    requireTrusted := requireTrusted
    innocuous := innocuous
    rawConvert := raw.convert }

/-- Whether the raw property recurses (source: explicit `recurse ===
true`, defaulting to true exactly when no mandated `value` is given). -/
def rawRecurses (raw : RawProperty) : Bool :=
  match raw.recurse with
  | some v => jsStrictEq v jsTrue
  | none => raw.valueV.isNone

/-- Normalized duck type metadata: the `augmented` record built by
makeMetadata, including the derived key lists in the order the source
pushes them (property declaration order). -/
structure DuckMeta where
  classTypeId : Nat
  className : String
  properties : List (String × PropMeta)
  toConstructorArguments : ToCtorArgsFn
  convertKeys : List String
  recurseToKeys : List String
  defaultKeys : List String
  requiredKeys : List String

def propsHas (ps : List (String × PropMeta)) (k : String) : Bool :=
  ps.any (fun kv => kv.1 = k)

def propsGet (ps : List (String × PropMeta)) (k : String) : Option PropMeta :=
  match ps.find? (fun kv => kv.1 = k) with
  | some kv => some kv.2
  | none => none

/-- makeMetadata over a whole raw duck type: walks the raw property
keys in order, rejects the reserved `__proto__` key, and accumulates
the derived key lists exactly as the source's per-key pushes do. -/
def makeMetadata (raw : RawDuckType) : Except String DuckMeta := do
  let mut properties : List (String × PropMeta) := []
  let mut requiredKeys : List String := []
  let mut defaultKeys : List String := []
  let mut convertKeys : List String := []
  let mut recurseToKeys : List String := []
  for kv in raw.props do
    let key := kv.1
    let rawProperty := kv.2
    if key = "__proto__" then
      throw "__proto__ has a special meaning that is incompatible with POJOs"
    let property := makePropMeta rawProperty
    properties := properties ++ [(key, property)]
    if property.hasDefault then
      defaultKeys := defaultKeys ++ [key]
    if property.required then
      requiredKeys := requiredKeys ++ [key]
    if rawRecurses rawProperty then
      recurseToKeys := recurseToKeys ++ [key]
    if property.hasConvert then
      convertKeys := convertKeys ++ [key]
  return { classTypeId := raw.classTypeId
           className := raw.className
           properties := properties
           toConstructorArguments := raw.toConstructorArguments
           convertKeys := convertKeys
           recurseToKeys := recurseToKeys
           defaultKeys := defaultKeys
           requiredKeys := requiredKeys }

/-! ### The effective per-property conversion function

The source compiles each constrained property into a closure (lines
786-818 of index.js).  `applyConvert` is that closure's body; the
guard stages are split into named functions so theorems can refer to
them individually. -/

/-- Stage: the literal-value check (`requiredValue !== value` rejects). -/
def literalStage (p : PropMeta) (v : JVal) : Option JVal :=
  if jsStrictEq p.requiredValue v then some v else none

/-- Stage: the type-guard check against a `typeof` string tag or an
`instanceof` constructor tag. -/
def typeGuardStage (p : PropMeta) (h : Heap) (v : JVal) : Option JVal :=
  match p.typeT with
  | some (.primTag s) => if s = typeofVal v then some v else none
  | some (.ctorTag c) => if truthy v && instanceOfTest h v c then some v else none
  | none => some v

/-- Stage: trust substitution followed by the custom convert (the tail
of the generated closure: `tvalue` then `rawConvert` or identity). -/
def trustAndCustomStage (p : PropMeta) (v : JVal) (trusted : Bool) (ctx : JVal) :
    Option JVal :=
  let tvalue := if p.requireTrusted && !trusted then p.innocuous else v
  match p.rawConvert with
  | some f => f tvalue trusted ctx
  | none => some tvalue

/-- The generated convert closure of makePropertyMetadata: the source
checks the literal value, ELSE the type guard (an `else if`), then
substitutes trust and runs the custom convert. -/
def applyConvert (p : PropMeta) (h : Heap) (v : JVal) (trusted : Bool) (ctx : JVal) :
    Option JVal :=
  if p.hasValue then
    match literalStage p v with
    | none => none
    | some v1 => trustAndCustomStage p v1 trusted ctx
  else
    match typeGuardStage p h v with
    | none => none
    | some v1 => trustAndCustomStage p v1 trusted ctx

/-- The effective conversion for a property, as dispatched by
makePropertyMetadata: the guarded closure when any of trust, type or
literal-value constraints are present, else the bare raw convert, else
no conversion (the fast path; such keys are absent from convertKeys). -/
def effectiveConvert (p : PropMeta) (h : Heap) (v : JVal) (trusted : Bool) (ctx : JVal) :
    Option JVal :=
  if p.guarded then applyConvert p h v trusted ctx
  else
    match p.rawConvert with
    | some f => f v trusted ctx
    | none => some v

/-- Modelled from the spec (section 3 invariant), for comparison with
the source's `applyConvert`: the effective conversion as the claimed
composition literal-value check, THEN type-guard check, then trust
substitution, then custom convert, each stage able to signal
non-applicability. -/
def specComposedConvert (p : PropMeta) (h : Heap) (v : JVal) (trusted : Bool)
    (ctx : JVal) : Option JVal :=
  let s1 := if p.hasValue then literalStage p v else some v
  match s1 with
  | none => none
  | some v1 =>
      match typeGuardStage p h v1 with
      | none => none
      | some v2 => trustAndCustomStage p v2 trusted ctx

/-! ### Classification tree builder

The source compares partition entropies computed with binary floating
point (`Math.log2`).  The embedding compares the same mathematical
quantities exactly: an entropy `(sum of n*log2 n) / (sum of n)` is
represented as `log2 pow / den` with `pow` the product of `n ^ n` over
the nonzero partition sizes, and two finite entropies compare by the
equivalent integer comparison `powA ^ denB < powB ^ denA`. -/

structure EntFin where
  pow : Nat
  den : Nat
  deriving DecidableEq, Repr

/-- An entropy value: finite, or the `Infinity` the source uses when a
partition is empty. -/
inductive EntVal where
  | fin (e : EntFin)
  | inf
  deriving DecidableEq, Repr

/-- Strict comparison of entropy values (the source's float `<`). -/
def entLT : EntVal → EntVal → Bool
  | .fin a, .fin b => a.pow ^ b.den < b.pow ^ a.den
  | .fin _, .inf => true
  | .inf, _ => false

/-- entropyAfterPartitions: zero-size partitions contribute nothing; a
zero denominator yields Infinity. -/
def entropyAfterPartitions (sizes : List Nat) : EntVal :=
  let pow := sizes.foldl (fun acc n => if n = 0 then acc else acc * n ^ n) 1
  let den := sizes.foldl (fun acc n => acc + n) 0
  if den = 0 then .inf else .fin ⟨pow, den⟩

/-- The entropy-before value `log2 count` for `count` candidates, in the
same representation: `log2 (count ^ count) / count`.  The best required
partition has zero information gain exactly when its entropy equals
this. -/
def entropyBeforeRep (count : Nat) : EntVal :=
  if count = 0 then .inf else .fin ⟨count ^ count, count⟩

/-- Insertion into a JS Set modelled as an ordered list: adding an
existing element keeps its original position. -/
def listInsert (l : List String) (k : String) : List String :=
  if l.contains k then l else l ++ [k]

/-- keysForTypes: collects the keys of all types into a `required` set
and an `optionalOnly` set (insertion-ordered); returns the combined key
set (optional-only keys first, then required ones) and the optional-only
set minus the required keys, exactly as the source's Set juggling does. -/
def keysForTypes (duckTypes : List DuckMeta) : List String × List String :=
  let rqOpt := duckTypes.foldl
    (fun acc dt =>
      dt.properties.foldl
        (fun acc2 kv =>
          if kv.2.required then (listInsert acc2.1 kv.1, acc2.2)
          else (acc2.1, listInsert acc2.2 kv.1))
        acc)
    ([], [])
  let required := rqOpt.1
  let optionalOnly0 := rqOpt.2
  let keys := required.foldl listInsert optionalOnly0
  let optionalOnly := optionalOnly0.filter (fun k => !required.contains k)
  (keys, optionalOnly)

/-- One required-key partition: shapes lacking the key (or having it
optional), shapes having it without a mandated value, and shapes having
it with a mandated value grouped by that value. -/
structure ReqPartition where
  haveNot : List DuckMeta
  haveWithoutSpecialValue : List DuckMeta
  valueMap : Option (List (JVal × List DuckMeta))

/-- Insertion into the value-keyed Map of tryPartition (JS Map key
equality is SameValueZero, which coincides with our decidable equality
in the NaN-free model). -/
def valueMapAdd (m : List (JVal × List DuckMeta)) (v : JVal) (dt : DuckMeta) :
    List (JVal × List DuckMeta) :=
  if m.any (fun p => p.1 = v) then
    m.map (fun p => if p.1 = v then (p.1, p.2 ++ [dt]) else p)
  else m ++ [(v, [dt])]

/-- The body of tryPartition for one key: builds the partition and its
entropy, or nothing when the key does not discriminate at all (the
source's early return). -/
def tryPartitionKey (duckTypes : List DuckMeta) (key : String) :
    Option (ReqPartition × EntVal) :=
  let part := duckTypes.foldl
    (fun acc dt =>
      match propsGet dt.properties key with
      | some pd =>
          let acc1 :=
            if pd.hasValue then
              { acc with valueMap := some (valueMapAdd (acc.valueMap.getD []) pd.requiredValue dt) }
            else
              { acc with haveWithoutSpecialValue := acc.haveWithoutSpecialValue ++ [dt] }
          if !pd.required then { acc1 with haveNot := acc1.haveNot ++ [dt] } else acc1
      | none => { acc with haveNot := acc.haveNot ++ [dt] })
    (⟨[], [], none⟩ : ReqPartition)
  let count := duckTypes.length
  if part.haveNot.length = count ∧ part.haveWithoutSpecialValue.length = count then
    none
  else
    let valueSizes := (part.valueMap.getD []).map
      (fun p => p.2.length + part.haveWithoutSpecialValue.length)
    let sizes := [part.haveNot.length, part.haveWithoutSpecialValue.length] ++ valueSizes
    some (part, entropyAfterPartitions sizes)

/-- The result record of partitionOnRequiredKey. -/
structure ReqChoice where
  entropyAfter : EntVal
  partitionKey : Option String
  partition : Option ReqPartition

/-- One step of partitionOnRequiredKey's search: replace the best
partition so far when this key's partition has strictly lower entropy
(so on ties the earlier key wins). -/
def reqStep (duckTypes : List DuckMeta) (best : ReqChoice) (key : String) : ReqChoice :=
  match tryPartitionKey duckTypes key with
  | none => best
  | some pe =>
      if entLT pe.2 best.entropyAfter then ⟨pe.2, some key, some pe.1⟩
      else best

/-- partitionOnRequiredKey: tries every key in order and keeps the first
partition of strictly minimal entropy. -/
def partitionOnRequiredKey (duckTypes : List DuckMeta) (keys : List String) :
    ReqChoice :=
  keys.foldl (reqStep duckTypes) ⟨.inf, none, none⟩

/-- The result record of partitionOnOptionalKeys. -/
structure OptChoice where
  entropyAfter : EntVal
  keyPartitionMap : Option (List (String × List DuckMeta))

/-- The keyPartitionMap built by partitionOnOptionalKeys: for each
optional-only key appearing in at most half the candidates (the JS
comparison `length <= count / 2` on the float quotient), the candidates
that may have it. -/
def optKeyMap (duckTypes : List DuckMeta) (keys : List String) :
    List (String × List DuckMeta) :=
  keys.foldl
    (fun acc key =>
      let mayHave := duckTypes.filter (fun dt => propsHas dt.properties key)
      if 2 * mayHave.length ≤ duckTypes.length then acc ++ [(key, mayHave)] else acc)
    []

/-- partitionOnOptionalKeys: the may-have map with its entropy; the full
candidate count is appended as an extra partition size because a
missing key still leaves every candidate possible. -/
def partitionOnOptionalKeys (duckTypes : List DuckMeta) (keys : List String) :
    OptChoice :=
  if (optKeyMap duckTypes keys).isEmpty then ⟨.inf, none⟩
  else
    ⟨entropyAfterPartitions
      (((optKeyMap duckTypes keys).map (fun p => p.2.length)) ++ [duckTypes.length]),
     some (optKeyMap duckTypes keys)⟩

/-- The decision the DTree constructor makes at one node: become a leaf,
split on a required key, or split on a may-have key map. -/
inductive NodeChoice where
  | leafChoice (duckTypes : List DuckMeta)
  | keyChoice (key : String) (partition : ReqPartition)
  | mayHaveChoice (keyPartitionMap : List (String × List DuckMeta))

def NodeChoice.isMayHave : NodeChoice → Bool
  | .mayHaveChoice _ => true
  | _ => false

def NodeChoice.isLeaf : NodeChoice → Bool
  | .leafChoice _ => true
  | _ => false

/-- The required-key choice record available to the DTree constructor
at a node (partitionOnRequiredKey over the not-yet-used keys). -/
def reqChoiceAt (duckTypes : List DuckMeta) (used : List String) : ReqChoice :=
  partitionOnRequiredKey duckTypes
    ((keysForTypes duckTypes).1.filter (fun k => !used.contains k))

/-- The may-have entropy available to the DTree constructor at a node. -/
def optEntropyAt (duckTypes : List DuckMeta) (used : List String) : OptChoice :=
  partitionOnOptionalKeys duckTypes
    ((keysForTypes duckTypes).2.filter (fun k => !used.contains k))

/-- The selection logic of the DTree constructor (source lines 512-579):
compute both partitions, then `keyPartitionMap && reqGain < optGain`
discards the required partition, an existing required partition
otherwise discards the map, and with neither the node is a leaf.
Comparing the gains `entropyBefore - entropyAfter` is comparing the
entropies in the opposite order, which is how it is embedded here. -/
def chooseSplit (duckTypes : List DuckMeta) (used : List String) : NodeChoice :=
  if duckTypes.length ≤ 1 then .leafChoice duckTypes
  else
    let req := reqChoiceAt duckTypes used
    let opt := optEntropyAt duckTypes used
    let pickOpt := opt.keyPartitionMap.isSome && entLT opt.entropyAfter req.entropyAfter
    let partition := if pickOpt then none else req.partition
    let kpm := if !pickOpt && req.partition.isSome then none else opt.keyPartitionMap
    match partition, req.partitionKey with
    | some p, some k => .keyChoice k p
    | _, _ =>
        match kpm with
        | some m => .mayHaveChoice m
        | none => .leafChoice duckTypes

/-- A built classification tree.  `count` is stored on inner nodes as
the constructor does; a leaf's count is its candidate-list length. -/
inductive DTreeN where
  | leaf (duckTypes : List DuckMeta)
  | keyNode (count : Nat) (key : String) (haveNot : DTreeN) (haveBranch : DTreeN)
      (valueMap : Option (List (JVal × DTreeN)))
  | mayHaveNode (count : Nat) (mayHaveMap : List (String × DTreeN)) (haveNone : DTreeN)

def DTreeN.count : DTreeN → Nat
  | .leaf ts => ts.length
  | .keyNode c _ _ _ _ => c
  | .mayHaveNode c _ _ => c

/-- Recursive tree construction, fuelled (`none` = fuel ran out; the
source recursion terminates because the used-key set grows, which is
outside this model's termination argument). -/
def buildDTreeN : Nat → List DuckMeta → List String → Option DTreeN
  | 0, _, _ => none
  | fuel+1, duckTypes, used =>
    match chooseSplit duckTypes used with
    | .leafChoice ts => some (.leaf ts)
    | .keyChoice key part => do
        let used1 := listInsert used key
        let hn ← buildDTreeN fuel part.haveNot used1
        let hv ← buildDTreeN fuel part.haveWithoutSpecialValue used1
        let vm ← match part.valueMap with
          | none => some none
          | some m =>
              some <$> m.mapM (fun p => do
                let t ← buildDTreeN fuel (p.2 ++ part.haveWithoutSpecialValue) used1
                pure (p.1, t))
        some (.keyNode duckTypes.length key hn hv vm)
    | .mayHaveChoice km => do
        let newUsed := (km.map Prod.fst).foldl listInsert used
        let mm ← km.mapM (fun p => do
          let t ← buildDTreeN fuel p.2 newUsed
          pure (p.1, t))
        let hn ← buildDTreeN fuel duckTypes newUsed
        some (.mayHaveNode duckTypes.length mm hn)

/-- Errors of the engine.  MissingDuckError instances are `missingDuck`;
the ambiguity and cycle errors are plain DuckErrors; `hostTypeError`
models a TypeError raised by the host language (reading a property of
undefined); `fuelOut` is the embedding's fuel-exhaustion artifact and
corresponds to no source behavior. -/
inductive DuckErr where
  | missingDuck (msg : String)
  | ambiguous (firstName secondName : String)
  | cycle
  | hostTypeError (msg : String)
  | fuelOut
  deriving DecidableEq, Repr

/-- The `exc instanceof MissingDuckError` test. -/
def DuckErr.isMissing : DuckErr → Bool
  | .missingDuck _ => true
  | _ => false

/-- The duck-hunt walk (DTree.duckHunt): descends have/have-not and
value-keyed children for key nodes, scans the input's keys in order at
a may-have node, fails with MissingDuckError at a zero-count node, and
returns the leaf's candidate list.  Fuelled in place of the source's
loop. -/
def duckHuntN : Nat → DTreeN → Bag → Except DuckErr (List DuckMeta)
  | 0, _, _ => .error .fuelOut
  | fuel+1, node, x =>
    match node with
    | .leaf ts => .ok ts
    | .keyNode _ key hn hv vm =>
        let nextNode :=
          if bagHas x key then
            match vm with
            | some m =>
                match m.find? (fun p => jsStrictEq p.1 (bagGetD x key (.prim .jsUndefined))) with
                | some p => p.2
                | none => hv
            | none => hv
          else hn
        if nextNode.count = 0 then .error (.missingDuck "Could not find duck type")
        else duckHuntN fuel nextNode x
    | .mayHaveNode _ mm hn =>
        let nextNode :=
          match x.find? (fun kv => mm.any (fun p => p.1 = kv.1)) with
          | some kv =>
              match mm.find? (fun p => p.1 = kv.1) with
              | some p => p.2
              | none => hn
          | none => hn
        if nextNode.count = 0 then .error (.missingDuck "Could not find duck type")
        else duckHuntN fuel nextNode x

/-! ### Graph walker and candidate evaluator

Per-call state: the heap, the unducking memo map and an instrumentation
counter recording, per heap address, how many times the compound-value
body (which is the only call site of `toConstructorArguments` for that
value) has been entered.  The counter is write-only instrumentation: no
definition reads it.  Errors carry the state at the throw, matching
JavaScript where mutations made before an exception persist. -/

/-- Memo entries of the unducking map: the in-progress breadcrumb or the
finished processed value. -/
inductive MemoEntry where
  | inProgress
  | done (r : JVal)
  deriving DecidableEq, Repr

structure RunState where
  heap : Heap
  memo : List (Nat × MemoEntry)
  bodyCount : List (Nat × Nat)

def memoGet (m : List (Nat × MemoEntry)) (a : Nat) : Option MemoEntry :=
  match m.find? (fun kv => kv.1 = a) with
  | some kv => some kv.2
  | none => none

def memoSet (m : List (Nat × MemoEntry)) (a : Nat) (e : MemoEntry) :
    List (Nat × MemoEntry) :=
  if m.any (fun kv => kv.1 = a) then
    m.map (fun kv => if kv.1 = a then (a, e) else kv)
  else m ++ [(a, e)]

def countGet (m : List (Nat × Nat)) (a : Nat) : Nat :=
  match m.find? (fun kv => kv.1 = a) with
  | some kv => kv.2
  | none => 0

def countIncr (m : List (Nat × Nat)) (a : Nat) : List (Nat × Nat) :=
  if m.any (fun kv => kv.1 = a) then
    m.map (fun kv => if kv.1 = a then (a, kv.2 + 1) else kv)
  else m ++ [(a, 1)]

/-- The engine's monad: state threading with errors that carry state. -/
abbrev UM (α : Type) := EStateM DuckErr RunState α

def resultErr {α : Type} : EStateM.Result DuckErr RunState α → Option DuckErr
  | .error e _ => some e
  | .ok _ _ => none

def resultVal {α : Type} : EStateM.Result DuckErr RunState α → Option α
  | .ok a _ => some a
  | .error _ _ => none

def resultState {α : Type} : EStateM.Result DuckErr RunState α → RunState
  | .ok _ s => s
  | .error _ s => s

def allocNode (n : HNode) : UM Nat := do
  let st ← get
  let hn := heapAlloc st.heap n
  set { st with heap := hn.1 }
  pure hn.2

/-- Reading the scratch object's current property bag. -/
def scratchRead (s : Nat) : UM Bag := do
  let st ← get
  match heapGet st.heap s with
  | some (.objNode es) => pure es
  | _ => pure []

/-- The write `scratchSpace[key] = v`. -/
def scratchWrite (s : Nat) (k : String) (v : JVal) : UM Unit := do
  let st ← get
  match heapGet st.heap s with
  | some (.objNode es) =>
      set { st with heap := heapSet st.heap s (.objNode (bagSet es k v)) }
  | _ => pure ()

/-- The allowed-keys check of applyOneDuckType: the first scratch key
not declared among the duck type's properties, if any. -/
def findDisallowedKey (dt : DuckMeta) (b : Bag) : Option String :=
  match b.find? (fun kv => !propsHas dt.properties kv.1) with
  | some kv => some kv.1
  | none => none

/-- The required-keys check: the first required key absent from the
scratch bag, if any. -/
def findMissingRequiredKey (dt : DuckMeta) (b : Bag) : Option String :=
  dt.requiredKeys.find? (fun k => !bagHas b k)

/-- The recursion loop of applyOneDuckType over recurseToKeys.  A
MissingDuckError from recursion is caught and fails just this candidate
(result false) unless failFast; every other error propagates.  State
changes made by the recursion before a throw persist, as in the
source. -/
def recurseLoop (rec : JVal → UM JVal) (failFast : Bool) (s : Nat) :
    List String → UM Bool
  | [] => pure true
  | recKey :: rest => do
      let es ← scratchRead s
      if bagHas es recKey then
        let st ← get
        match rec (bagGetD es recKey (.prim .jsUndefined)) st with
        | .ok r st' => do
            set st'
            scratchWrite s recKey r
            recurseLoop rec failFast s rest
        | .error e st' => do
            set st'
            if !failFast && e.isMissing then pure false
            else throw e
      else recurseLoop rec failFast s rest

/-- The defaults loop of applyOneDuckType.  The source looks up
`duckType.properties[defaultKeys]`, coercing the WHOLE defaultKeys
array to a string property name (its comma-joined form) instead of
using the current key; when that lookup yields no property record the
host raises a TypeError reading `.default` of undefined. -/
def defaultsLoop (dt : DuckMeta) (s : Nat) : List String → UM Unit
  | [] => pure ()
  | key :: rest => do
      let es ← scratchRead s
      if !bagHas es key then
        match propsGet dt.properties (String.intercalate "," dt.defaultKeys) with
        | none =>
            throw (.hostTypeError "cannot read properties of undefined reading default")
        | some p =>
            scratchWrite s key (if p.hasDefault then p.defaultVal else .prim .jsUndefined)
      defaultsLoop dt s rest

/-- The converter loop of applyOneDuckType over convertKeys: a
notApplicable result fails this candidate (throwing in failFast mode),
otherwise the converted value is written back. -/
def convertLoop (dt : DuckMeta) (trusted : Bool) (ctx : JVal) (failFast : Bool)
    (s : Nat) : List String → UM Bool
  | [] => pure true
  | key :: rest => do
      let es ← scratchRead s
      if bagHas es key then
        match propsGet dt.properties key with
        | none => convertLoop dt trusted ctx failFast s rest
        | some p => do
            let st ← get
            match effectiveConvert p st.heap (bagGetD es key (.prim .jsUndefined)) trusted ctx with
            | none =>
                if failFast then
                  throw (.missingDuck ("Failed to convert property " ++ key ++
                    " using type " ++ dt.className))
                else pure false
            | some c => do
                scratchWrite s key c
                convertLoop dt trusted ctx failFast s rest
      else convertLoop dt trusted ctx failFast s rest

/-- applyOneDuckType: allocates the scratch copy of the unchained bag,
runs the key-set check, the required-key check, the recursion loop, the
defaults loop and the converter loop; `none` models returning null
(this candidate fails), `some s` returns the scratch address.  In
failFast mode every reported failure is thrown instead (the report
callback throws when there is no failover candidate). -/
def applyOneDuckType (rec : JVal → UM JVal) (trusted : Bool) (ctx : JVal)
    (dt : DuckMeta) (unchained : Bag) (failFast : Bool) : UM (Option Nat) := do
  let s ← allocNode (.objNode unchained)
  match findDisallowedKey dt unchained with
  | some key =>
      if failFast then
        throw (.missingDuck ("Duck type " ++ dt.className ++ " does not allow key " ++ key))
      else pure none
  | none =>
    match findMissingRequiredKey dt unchained with
    | some key =>
        if failFast then
          throw (.missingDuck ("Input does not have key " ++ key ++
            " required by duck type " ++ dt.className))
        else pure none
    | none => do
        let ok1 ← recurseLoop rec failFast s dt.recurseToKeys
        if !ok1 then pure none
        else do
          defaultsLoop dt s dt.defaultKeys
          let ok2 ← convertLoop dt trusted ctx failFast s dt.convertKeys
          if !ok2 then pure none
          else pure (some s)

/-- One candidate's full screening: applyOneDuckType followed by
toConstructorArguments on the processed scratch bag.  `some (dt, args)`
is a full match; `none` is a soft per-candidate failure. -/
def screenOne (rec : JVal → UM JVal) (trusted : Bool) (ctx : JVal)
    (dt : DuckMeta) (unchained : Bag) (failFast : Bool) :
    UM (Option (DuckMeta × List JVal)) := do
  let s? ← applyOneDuckType rec trusted ctx dt unchained failFast
  match s? with
  | none => pure none
  | some s => do
      let es ← scratchRead s
      match dt.toConstructorArguments es trusted ctx with
      | some args => pure (some (dt, args))
      | none =>
          if failFast then
            throw (.missingDuck ("Failed to compute constructor arguments for " ++
              dt.className))
          else pure none

/-- The candidate loop of tentativelyApplyDuckTypes: remembers the
first full match and raises the fatal ambiguity DuckError naming both
types the moment a second candidate fully matches. -/
def tentativelyLoop (rec : JVal → UM JVal) (trusted : Bool) (ctx : JVal)
    (unchained : Bag) (failFast : Bool) (acc : Option (DuckMeta × List JVal)) :
    List DuckMeta → UM (Option (DuckMeta × List JVal))
  | [] => pure acc
  | dt :: rest => do
      let r ← screenOne rec trusted ctx dt unchained failFast
      match r, acc with
      | some dta, some dt0 =>
          throw (.ambiguous dt0.1.className dta.1.className)
      | some dta, none => tentativelyLoop rec trusted ctx unchained failFast (some dta) rest
      | none, _ => tentativelyLoop rec trusted ctx unchained failFast acc rest

/-- tentativelyApplyDuckTypes: failFast exactly when the candidate node
holds a single type. -/
def tentativelyApplyDuckTypes (rec : JVal → UM JVal) (trusted : Bool) (ctx : JVal)
    (types : List DuckMeta) (count : Nat) (unchained : Bag) :
    UM (Option (DuckMeta × List JVal)) :=
  tentativelyLoop rec trusted ctx unchained (count == 1) none types

/-- Element-wise processing of an array's own entries, skipping the
reserved `__proto__` key and `length`, building a fresh result array. -/
def processArrEntries (rec : JVal → UM JVal) :
    List (String × JVal) → UM (List (String × JVal))
  | [] => pure []
  | kv :: rest =>
      if kv.1 ≠ "__proto__" && kv.1 ≠ "length" then do
        let r ← rec kv.2
        let rs ← processArrEntries rec rest
        pure ((kv.1, r) :: rs)
      else processArrEntries rec rest

/-- processPojo minus the memo bookkeeping: copy the own entries into a
prototype-less bag omitting `__proto__`, duck-hunt for the leaf of
candidates, tentatively apply them, throw MissingDuckError when none
fully matched, and otherwise construct the class instance (a fresh
instNode).  The lazily-built diagnostic message of the source is not
modelled; only the error kind is. -/
def processPojoCore (rec : JVal → UM JVal) (trusted : Bool) (ctx : JVal)
    (root : DTreeN) (hFuel : Nat) (entries : List (String × JVal)) : UM JVal := do
  let unchained := entries.filter (fun kv => kv.1 ≠ "__proto__")
  match duckHuntN hFuel root unchained with
  | .error e => throw e
  | .ok ts => do
      let app ← tentativelyApplyDuckTypes rec trusted ctx ts ts.length unchained
      match app with
      | none => throw (.missingDuck "Failed to compute constructor arguments")
      | some dta => do
          let a ← allocNode (.instNode dta.1.classTypeId dta.2)
          pure (.ref a)

/-- The cycle/memo protocol of process: re-entry while in progress
throws the cycle DuckError; an already-done value returns the shared
processed result; otherwise the in-progress breadcrumb is set (and the
instrumentation counter bumped), the body runs, and its result is
recorded as done. -/
def withMemo (a : Nat) (body : UM JVal) : UM JVal := do
  let st ← get
  match memoGet st.memo a with
  | some .inProgress => throw .cycle
  | some (.done r) => pure r
  | none => do
      set { st with memo := memoSet st.memo a .inProgress,
                    bodyCount := countIncr st.bodyCount a }
      let r ← body
      let st2 ← get
      set { st2 with memo := memoSet st2.memo a (.done r) }
      pure r

/-- The recursive driver `process`: primitives (and opaque callables)
pass through unchanged, class instances are not mucked with, arrays and
plain bags go through the memo protocol into element-wise processing or
the matcher/evaluator pipeline.  Fuelled; all recursion decreases the
fuel. -/
def processV (trusted : Bool) (ctx : JVal) (root : DTreeN) (hFuel : Nat) :
    Nat → JVal → UM JVal
  | 0, _ => throw .fuelOut
  | fuel+1, x =>
    match x with
    | .prim _ => pure x
    | .ref a => do
        let st ← get
        match heapGet st.heap a with
        | none => pure x
        | some (.instNode _ _) => pure x
        | some (.arrNode entries) =>
            withMemo a (do
              let es ← processArrEntries (processV trusted ctx root hFuel fuel) entries
              let na ← allocNode (.arrNode es)
              pure (.ref na))
        | some (.objNode entries) =>
            withMemo a
              (processPojoCore (processV trusted ctx root hFuel fuel) trusted ctx root hFuel entries)

/-! ### Ponds: registration, deduplication and the entry points -/

/-- Duck type descriptions are registered by identity; catalogue members
are description identities resolved through an environment.  `new
Set(duckTypes)` keeps the first occurrence of each identity. -/
def dedupFirst (l : List Nat) : List Nat :=
  l.foldl (fun acc i => if acc.contains i then acc else acc ++ [i]) []

/-- withTypes: the base catalogue's identities plus the new ones, Set
semantics. -/
def withTypesIds (base more : List Nat) : List Nat :=
  dedupFirst (base ++ more)

/-- getRoot's normalization: dedupe the registered descriptions and run
each through the metadata maker. -/
def pondNormTypes (env : Nat → RawDuckType) (ids : List Nat) :
    Except String (List DuckMeta) :=
  (dedupFirst ids).mapM (fun i => makeMetadata (env i))

def initState (h : Heap) : RunState :=
  { heap := h, memo := [], bodyCount := [] }

/-- A full classification call on a pond: normalize the catalogue
(registration errors surface as the String error), build the tree, and
run the processor.  `trusted` is false for the plain pond call and true
for the `.trust` entry point. -/
def pondRun (env : Nat → RawDuckType) (ids : List Nat) (trusted : Bool) (ctx : JVal)
    (bFuel hFuel pFuel : Nat) (x : JVal) (st : RunState) :
    Except String (EStateM.Result DuckErr RunState JVal) :=
  match pondNormTypes env ids with
  | .error e => .error e
  | .ok norm =>
      match buildDTreeN bFuel norm [] with
      | none => .ok (.error .fuelOut st)
      | some root => .ok (processV trusted ctx root hFuel pFuel x st)

/-! ### Outcome projections and concrete fixtures used by the theorems -/

/-- The classified value of a full call, when registration and the call
both succeeded. -/
def runVal (env : Nat → RawDuckType) (ids : List Nat) (trusted : Bool) (ctx x : JVal)
    (h : Heap) : Option JVal :=
  match pondRun env ids trusted ctx 32 32 32 x (initState h) with
  | .ok (.ok v _) => some v
  | _ => none

/-- The runtime error of a full call, if any. -/
def runErr (env : Nat → RawDuckType) (ids : List Nat) (trusted : Bool) (ctx x : JVal)
    (h : Heap) : Option DuckErr :=
  match pondRun env ids trusted ctx 32 32 32 x (initState h) with
  | .ok (.error e _) => some e
  | _ => none

/-- The final heap node at an address after a full call. -/
def runHeapAt (a : Nat) (env : Nat → RawDuckType) (ids : List Nat) (trusted : Bool)
    (ctx x : JVal) (h : Heap) : Option HNode :=
  match pondRun env ids trusted ctx 32 32 32 x (initState h) with
  | .ok r => heapGet (resultState r).heap a
  | .error _ => none

/-- The final body-entry instrumentation count at an address after a
full call. -/
def runCountAt (a : Nat) (env : Nat → RawDuckType) (ids : List Nat) (trusted : Bool)
    (ctx x : JVal) (h : Heap) : Option Nat :=
  match pondRun env ids trusted ctx 32 32 32 x (initState h) with
  | .ok r => some (countGet (resultState r).bodyCount a)
  | .error _ => none

/-- A raw property descriptor with no own fields at all. -/
def noRawProp : RawProperty :=
  { required := none, typeT := none, valueV := none, defaultV := none,
    recurse := none, trustedT := none, innocuous := none, convert := none }

/-- An empty duck type record used as the fallback when unwrapping
metadata of fixtures that are known to normalize successfully. -/
def dummyMeta : DuckMeta :=
  { classTypeId := 0, className := "", properties := [],
    toConstructorArguments := fun _ _ _ => none,
    convertKeys := [], recurseToKeys := [], defaultKeys := [], requiredKeys := [] }

def metaOf (r : RawDuckType) : DuckMeta :=
  match makeMetadata r with
  | .ok m => m
  | .error _ => dummyMeta

def emptyHeap : Heap := { nodes := [], next := 0 }

def uctx : JVal := .prim .jsUndefined

/-- Fixture for the literal-plus-type-guard interaction: a property
declaring both a mandated value (the string Date) and a number type
guard. -/
def vtProp : RawProperty :=
  { noRawProp with valueV := some (.prim (.str "Date")),
                   typeT := some (.primTag "number") }

/-- Modelled from the amended composition law: the effective conversion
as a staged pipeline in which the literal-value check replaces the
type-guard check when a mandated value is declared (only fields without
one are type-guarded), followed by trust substitution and the custom
convert. -/
def amendedComposedConvert (p : PropMeta) (h : Heap) (v : JVal) (trusted : Bool)
    (ctx : JVal) : Option JVal :=
  let s1 := if p.hasValue then literalStage p v else typeGuardStage p h v
  match s1 with
  | none => none
  | some v1 => trustAndCustomStage p v1 trusted ctx

/-- Running just the custom convert (or the identity when there is
none), used to state what reaches the convert after trust handling. -/
def customOrId (f? : Option ConvertFn) (v : JVal) (trusted : Bool) (ctx : JVal) :
    Option JVal :=
  match f? with
  | some f => f v trusted ctx
  | none => some v

/-- Fixture duck types for the tree-builder counterexample: three types
with one optional-only key each plus one type with one required key. -/
def optOnlyProp : RawProperty := { noRawProp with required := some (.prim (.boolean false)) }

def mkSimpleRaw (cid : Nat) (nm : String) (ps : List (String × RawProperty)) : RawDuckType :=
  { classTypeId := cid, className := nm, props := ps,
    toConstructorArguments := fun _ _ _ => none }

def exT1 : DuckMeta := metaOf (mkSimpleRaw 1 "T1" [("a", optOnlyProp)])
def exT2 : DuckMeta := metaOf (mkSimpleRaw 2 "T2" [("b", optOnlyProp)])
def exT3 : DuckMeta := metaOf (mkSimpleRaw 3 "T3" [("c", optOnlyProp)])
def exT4 : DuckMeta := metaOf (mkSimpleRaw 4 "T4" [("k", noRawProp)])
def exTypes : List DuckMeta := [exT1, exT2, exT3, exT4]

/-- Fixture for the trust law: one shape with a single trust-requiring
property carrying an innocuous value, an identity custom convert (so
the value reaching the convert is observable), recursion disabled so
the field value may be arbitrary, and a constructor-argument builder
that also records the trust flag it received. -/
def trustRawProp (v0 : JVal) : RawProperty :=
  { noRawProp with trustedT := some (.prim (.boolean true)), innocuous := some v0,
                   recurse := some (.prim (.boolean false)),
                   convert := some (fun v _ _ => some v) }

def rawTrust (v0 : JVal) : RawDuckType :=
  { classTypeId := 9, className := "Tweet",
    props := [("x", trustRawProp v0)],
    toConstructorArguments := fun bag t _ =>
      some [bagGetD bag "x" (.prim .jsUndefined), .prim (.boolean t)] }

def envTrust (v0 : JVal) : Nat → RawDuckType := fun _ => rawTrust v0

def trustHeap (vx : JVal) : Heap :=
  { nodes := [(0, .objNode [("x", vx)])], next := 1 }

/-- Fixture for the defaults bug: a shape with two defaulted fields. -/
def rawTwoDefaults : RawDuckType :=
  { classTypeId := 3, className := "Def2",
    props := [("x", { noRawProp with defaultV := some (.prim (.num 1)) }),
              ("y", { noRawProp with defaultV := some (.prim (.num 2)) })],
    toConstructorArguments := fun bag _ _ =>
      some [bagGetD bag "x" (.prim .jsUndefined), bagGetD bag "y" (.prim .jsUndefined)] }

def envTwoDefaults : Nat → RawDuckType := fun _ => rawTwoDefaults

/-- Fixture: the same shape with only one defaulted field, on which the
defaults loop happens to work because the whole defaultKeys array
string-coerces to the single key. -/
def rawOneDefault : RawDuckType :=
  { classTypeId := 4, className := "Def1",
    props := [("x", { noRawProp with defaultV := some (.prim (.num 7)) })],
    toConstructorArguments := fun bag _ _ => some [bagGetD bag "x" (.prim .jsUndefined)] }

def envOneDefault : Nat → RawDuckType := fun _ => rawOneDefault

def emptyObjHeap : Heap := { nodes := [(0, .objNode [])], next := 1 }

/-- Fixture for cycle detection: a self-referential array and a
self-referential plain object. -/
def selfArrHeap : Heap := { nodes := [(0, .arrNode [("0", .ref 0)])], next := 1 }

def selfObjHeap : Heap := { nodes := [(0, .objNode [("a", .ref 0)])], next := 1 }

def rawSelfObj : RawDuckType :=
  { classTypeId := 7, className := "SelfObj",
    props := [("a", noRawProp)],
    toConstructorArguments := fun bag _ _ => some [bagGetD bag "a" (.prim .jsUndefined)] }

def envSelfObj : Nat → RawDuckType := fun _ => rawSelfObj

/-- Fixtures for referential sharing: a pair object whose two fields
reference the same inner point-like object. -/
def rawPt : RawDuckType :=
  { classTypeId := 5, className := "Pt",
    props := [("v", { noRawProp with typeT := some (.primTag "number") })],
    toConstructorArguments := fun bag _ _ => some [bagGetD bag "v" (.prim .jsUndefined)] }

def rawPair : RawDuckType :=
  { classTypeId := 6, className := "Pair",
    props := [("p", noRawProp), ("q", noRawProp)],
    toConstructorArguments := fun bag _ _ =>
      some [bagGetD bag "p" (.prim .jsUndefined), bagGetD bag "q" (.prim .jsUndefined)] }

def envShare : Nat → RawDuckType := fun i => if i = 0 then rawPt else rawPair

def shareHeap : Heap :=
  { nodes := [(0, .objNode [("p", .ref 1), ("q", .ref 1)]),
              (1, .objNode [("v", .prim (.num 3))])], next := 2 }

/-! ### Specification scaffolding for the theorems -/

/-- The sequential screening outcomes of a candidate list: each
candidate's full screening result in order, with the same state
threading as the real loop but without the ambiguity bookkeeping.  Used
to state the exactly-one-match law. -/
def screenOutcomes (rec : JVal → UM JVal) (trusted : Bool) (ctx : JVal)
    (unchained : Bag) (failFast : Bool) :
    List DuckMeta → UM (List (Option (DuckMeta × List JVal)))
  | [] => pure []
  | dt :: rest => do
      let r ← screenOne rec trusted ctx dt unchained failFast
      let rs ← screenOutcomes rec trusted ctx unchained failFast rest
      pure (r :: rs)

/-- The expected outcome of the candidate loop given the pending first
match and the list of full-match results: no match yet and none found
is a `none` success, one match is returned, and a second full match is
the ambiguity error naming both. -/
def loopSpecVal : Option (DuckMeta × List JVal) → List (DuckMeta × List JVal) →
    Sum (Option (DuckMeta × List JVal)) DuckErr
  | none, [] => .inl none
  | none, x :: s => loopSpecVal (some x) s
  | some a, [] => .inl (some a)
  | some a, x :: _ => .inr (.ambiguous a.1.className x.1.className)

/-- Heap-frame property relative to a low-address bound: the next fresh
address never drops below the bound and every node at an address below
the bound is untouched. -/
def PreservesFrom (n : Nat) (s t : RunState) : Prop :=
  n ≤ t.heap.next ∧ ∀ a, a < n → heapGet t.heap a = heapGet s.heap a

/-- The instrumentation invariant: an address's body-entry count is one
exactly when the memo has an entry for it, zero otherwise.  Since the
memo is checked before entering the body and set on entry, this pins
every compound value to at most one body entry per call. -/
def countConsistent (s : RunState) : Prop :=
  ∀ a, countGet s.bodyCount a = (if (memoGet s.memo a).isSome then 1 else 0)

/-- The combined step property used in the interpreter induction: the
heap frame below `n`, no memo entry is ever removed, and the
instrumentation invariant is preserved. -/
def GoodStep (n : Nat) (s t : RunState) : Prop :=
  PreservesFrom n s t ∧
  (∀ a, (memoGet s.memo a).isSome = true → (memoGet t.memo a).isSome = true) ∧
  (countConsistent s → countConsistent t)

/-- A computation is good below `n` when, from every state whose next
fresh address is at least `n`, it steps to a good state — on success
and on error alike (errors carry their state). -/
def GoodM {α : Type} (n : Nat) (m : UM α) : Prop :=
  ∀ st, n ≤ st.heap.next → GoodStep n st (resultState (m st))

/-! ## Theorems -/

/-- Destructuring a successful monadic bind in the engine monad. -/
theorem umBind_ok {α β : Type} (x : UM α) (f : α → UM β) (st : RunState)
    (b : β) (st' : RunState) :
    (x >>= f) st = .ok b st' ↔ ∃ a st1, x st = .ok a st1 ∧ f a st1 = .ok b st' := by
  constructor
  · intro h
    cases hx : x st with
    | ok a s1 => exact ⟨a, s1, rfl, by simpa [Bind.bind, EStateM.bind, hx] using h⟩
    | error e s1 => simp [Bind.bind, EStateM.bind, hx] at h
  · rintro ⟨a, s1, hx, hf⟩
    simp [Bind.bind, EStateM.bind, hx, hf]

/-- Evaluating a bind whose first component's result is known. -/
theorem umBind_eval {α β : Type} (x : UM α) (f : α → UM β) (st : RunState)
    (a : α) (st1 : RunState) (hx : x st = .ok a st1) :
    (x >>= f) st = f a st1 := by
  simp [Bind.bind, EStateM.bind, hx]

/-- A bind whose first component errors propagates the error and its
state. -/
theorem umBind_error {α β : Type} (x : UM α) (f : α → UM β) (st : RunState)
    (e : DuckErr) (st1 : RunState) (hx : x st = .error e st1) :
    (x >>= f) st = .error e st1 := by
  simp [Bind.bind, EStateM.bind, hx]

/-- Reading the state in the engine monad. -/
theorem umGet_eval (st : RunState) : (get : UM RunState) st = .ok st st := rfl

/-- C2 counterexample: a property declaring both a literal value (the
string Date) and a number type guard.  The string Date passes the
literal-value check and the generated convert accepts it, even though
the type-guard stage rejects it; the claimed composition (literal
check, then type check) would have signalled non-applicability.  So the
effective conversion is not the claimed four-stage composition. -/
theorem c2_counterexample :
    applyConvert (makePropMeta vtProp) emptyHeap (.prim (.str "Date")) false uctx =
      some (.prim (.str "Date")) ∧
    typeGuardStage (makePropMeta vtProp) emptyHeap (.prim (.str "Date")) = none ∧
    specComposedConvert (makePropMeta vtProp) emptyHeap (.prim (.str "Date")) false uctx =
      none := ⟨rfl, rfl, rfl⟩

/-- C2 (amended): for every field, the effective conversion is the
staged composition in which the literal-value check REPLACES the
type-guard check when a literal is declared (only fields without a
literal are type-guarded), followed by trust substitution and then the
custom convert; each stage may signal non-applicability.  This covers
all four dispatch cases of makePropertyMetadata, including the
bare-convert and no-conversion fast paths. -/
theorem c2_effective_conversion_composition (p : PropMeta) (h : Heap) (v : JVal)
    (t : Bool) (c : JVal) :
    effectiveConvert p h v t c = amendedComposedConvert p h v t c := by
  unfold effectiveConvert amendedComposedConvert applyConvert
  by_cases hg : p.guarded
  · simp only [hg, if_true]
    by_cases hv : p.hasValue <;> simp [hv]
  · have h' : p.requireTrusted = false ∧ p.typeT = none ∧ p.hasValue = false := by
      unfold PropMeta.guarded at hg
      simp at hg
      exact ⟨hg.1.1, hg.1.2, hg.2⟩
    simp [hg, h'.1, h'.2.1, h'.2.2, typeGuardStage, trustAndCustomStage]

/-- C3: the defaults loop of applyOneDuckType looks up
`properties[defaultKeys]`, string-coercing the whole defaultKeys array
instead of using the current key.  With a shape declaring two defaulted
fields and an input missing them, the lookup of the comma-joined name
fails and the call dies with a host TypeError instead of supplying each
field's declared default; with a single defaulted field the same code
accidentally works and the default is applied. -/
theorem c3_defaults_bug :
    runErr envTwoDefaults [0] false uctx (.ref 0) emptyObjHeap =
      some (.hostTypeError "cannot read properties of undefined reading default") ∧
    runHeapAt 2 envOneDefault [0] false uctx (.ref 0) emptyObjHeap =
      some (.instNode 4 [.prim (.num 7)]) := ⟨rfl, rfl⟩

/-- C4: the trust law.  First conjunct: for every property marked
trust-required whose guard stages pass, converting in untrusted mode
hands the innocuous value to the custom convert (with a false trust
flag), while trusted mode hands the original value through verbatim
(with a true trust flag).  Second conjunct, end to end for arbitrary
innocuous and supplied values: the untrusted entry point constructs
from the innocuous value and passes false to buildArguments, the
trusted entry point constructs from the original value and passes
true. -/
theorem c4_trust_law :
    (∀ p h v ctx, p.requireTrusted = true →
      (p.hasValue = true → jsStrictEq p.requiredValue v = true) →
      (p.hasValue = false → typeGuardStage p h v = some v) →
      applyConvert p h v false ctx = customOrId p.rawConvert p.innocuous false ctx ∧
      applyConvert p h v true ctx = customOrId p.rawConvert v true ctx) ∧
    (∀ v0 vx,
      runHeapAt 2 (envTrust v0) [0] false uctx (.ref 0) (trustHeap vx) =
        some (.instNode 9 [v0, .prim (.boolean false)]) ∧
      runHeapAt 2 (envTrust v0) [0] true uctx (.ref 0) (trustHeap vx) =
        some (.instNode 9 [vx, .prim (.boolean true)])) := by
  constructor
  · intro p h v ctx htr hlit hty
    unfold applyConvert trustAndCustomStage customOrId literalStage
    by_cases hv : p.hasValue
    · simp [hv, hlit hv, htr]
    · simp only [Bool.not_eq_true] at hv
      simp [hv, hty hv, htr]
  · intro v0 vx
    exact ⟨rfl, rfl⟩

/-- Witness for C4 at a concrete trust-required property and value. -/
theorem c4_trust_law_witness :
    applyConvert (makePropMeta (trustRawProp (.prim (.str "tweet")))) emptyHeap
        (.prim (.str "dieX")) false uctx =
      customOrId (makePropMeta (trustRawProp (.prim (.str "tweet")))).rawConvert
        (makePropMeta (trustRawProp (.prim (.str "tweet")))).innocuous false uctx :=
  (c4_trust_law.1 (makePropMeta (trustRawProp (.prim (.str "tweet")))) emptyHeap
    (.prim (.str "dieX")) uctx rfl
    (fun hh => absurd hh (by decide))
    (fun _ => rfl)).1

theorem assocFind_append_other {β : Type} (l : List (Nat × β)) (a b : Nat) (v : β)
    (hne : b ≠ a) :
    (l ++ [(a, v)]).find? (fun kv => kv.1 = b) = l.find? (fun kv => kv.1 = b) := by
  rw [List.find?_append]
  cases hf : l.find? (fun kv => kv.1 = b) with
  | some x => rfl
  | none =>
      simp only [Option.none_orElse, List.find?]
      have h1 : (decide ((a, v).1 = b)) = false := by simp; omega
      simp [h1]

theorem assocFind_append_self {β : Type} (l : List (Nat × β)) (a : Nat) (v : β)
    (hmem : l.any (fun kv => kv.1 = a) = false) :
    (l ++ [(a, v)]).find? (fun kv => kv.1 = a) = some (a, v) := by
  rw [List.find?_append]
  have hf : l.find? (fun kv => kv.1 = a) = none := by
    rw [List.find?_eq_none]
    intro x hx hq
    have hT : l.any (fun kv => kv.1 = a) = true := by
      rw [List.any_eq_true]
      exact ⟨x, hx, hq⟩
    rw [hT] at hmem
    cases hmem
  rw [hf]
  simp only [Option.none_orElse, List.find?]
  simp

theorem heapGet_alloc_lt (h : Heap) (v : HNode) (a : Nat) (ha : a < h.next) :
    heapGet (heapAlloc h v).1 a = heapGet h a := by
  unfold heapGet heapAlloc
  simp only [List.find?]
  have h1 : (decide (h.next = a)) = false := by simp; omega
  simp only [h1]

theorem heapGet_set_other (h : Heap) (a b : Nat) (v : HNode) (hne : b ≠ a) :
    heapGet (heapSet h a v) b = heapGet h b := by
  unfold heapGet heapSet
  simp only
  induction h.nodes with
  | nil => rfl
  | cons kv rest ih =>
      simp only [List.map_cons, List.find?]
      by_cases hk : kv.1 = a
      · simp only [if_pos hk]
        have h1 : (decide ((a, v).1 = b)) = false := by simp; omega
        have h2 : (decide (kv.1 = b)) = false := by rw [hk]; simp; omega
        simp only [h1, h2]
        exact ih
      · simp only [if_neg hk]
        by_cases hb : kv.1 = b
        · have hd : (decide (kv.1 = b)) = true := by simp [hb]
          simp only [hd]
        · have hd : (decide (kv.1 = b)) = false := by simp [hb]
          simp only [hd]
          exact ih

theorem memoGet_set_other (m : List (Nat × MemoEntry)) (a b : Nat) (e : MemoEntry)
    (hne : b ≠ a) : memoGet (memoSet m a e) b = memoGet m b := by
  unfold memoGet memoSet
  by_cases hm : m.any (fun kv => kv.1 = a)
  · rw [if_pos hm]
    clear hm
    induction m with
    | nil => rfl
    | cons kv rest ih =>
        simp only [List.map_cons, List.find?]
        by_cases hk : kv.1 = a
        · simp only [if_pos hk]
          have h1 : (decide ((a, e).1 = b)) = false := by simp; omega
          have h2 : (decide (kv.1 = b)) = false := by rw [hk]; simp; omega
          simp only [h1, h2]
          exact ih
        · simp only [if_neg hk]
          by_cases hb : kv.1 = b
          · have hd : (decide (kv.1 = b)) = true := by simp [hb]
            simp only [hd]
          · have hd : (decide (kv.1 = b)) = false := by simp [hb]
            simp only [hd]
            exact ih
  · rw [if_neg hm, assocFind_append_other m a b e hne]

theorem memoGet_set_self (m : List (Nat × MemoEntry)) (a : Nat) (e : MemoEntry) :
    memoGet (memoSet m a e) a = some e := by
  unfold memoGet memoSet
  by_cases hm : m.any (fun kv => kv.1 = a)
  · rw [if_pos hm]
    induction m with
    | nil => simp at hm
    | cons kv rest ih =>
        simp only [List.map_cons, List.find?]
        by_cases hk : kv.1 = a
        · simp only [if_pos hk]
          simp
        · simp only [if_neg hk]
          have hd : (decide (kv.1 = a)) = false := by simp [hk]
          simp only [hd]
          apply ih
          simp only [List.any_cons, Bool.or_eq_true] at hm
          rcases hm with h1 | h2
          · exact absurd (by simpa using h1) hk
          · exact h2
  · rw [if_neg hm, assocFind_append_self m a e (Bool.eq_false_iff.mpr hm)]

theorem countGet_incr_other (m : List (Nat × Nat)) (a b : Nat) (hne : b ≠ a) :
    countGet (countIncr m a) b = countGet m b := by
  unfold countGet countIncr
  by_cases hm : m.any (fun kv => kv.1 = a)
  · rw [if_pos hm]
    clear hm
    induction m with
    | nil => rfl
    | cons kv rest ih =>
        simp only [List.map_cons, List.find?]
        by_cases hk : kv.1 = a
        · simp only [if_pos hk]
          have h1 : (decide ((a, kv.2 + 1).1 = b)) = false := by simp; omega
          have h2 : (decide (kv.1 = b)) = false := by rw [hk]; simp; omega
          simp only [h1, h2]
          exact ih
        · simp only [if_neg hk]
          by_cases hb : kv.1 = b
          · have hd : (decide (kv.1 = b)) = true := by simp [hb]
            simp only [hd]
          · have hd : (decide (kv.1 = b)) = false := by simp [hb]
            simp only [hd]
            exact ih
  · rw [if_neg hm, assocFind_append_other m a b 1 hne]

theorem countGet_incr_self (m : List (Nat × Nat)) (a : Nat) :
    countGet (countIncr m a) a = countGet m a + 1 := by
  unfold countGet countIncr
  by_cases hm : m.any (fun kv => kv.1 = a)
  · rw [if_pos hm]
    induction m with
    | nil => simp at hm
    | cons kv rest ih =>
        simp only [List.map_cons, List.find?]
        by_cases hk : kv.1 = a
        · simp only [if_pos hk]
          have hd : (decide (kv.1 = a)) = true := by simp [hk]
          simp only [hd]
          simp
        · simp only [if_neg hk]
          have hd : (decide (kv.1 = a)) = false := by simp [hk]
          simp only [hd]
          apply ih
          simp only [List.any_cons, Bool.or_eq_true] at hm
          rcases hm with h1 | h2
          · exact absurd (by simpa using h1) hk
          · exact h2
  · rw [if_neg hm, assocFind_append_self m a 1 (Bool.eq_false_iff.mpr hm)]
    have hf : m.find? (fun kv => kv.1 = a) = none := by
      rw [List.find?_eq_none]
      intro x hx hq
      have hT : m.any (fun kv => kv.1 = a) = true := by
        rw [List.any_eq_true]
        exact ⟨x, hx, hq⟩
      exact hm hT
    rw [hf]

theorem heapSet_next (h : Heap) (a : Nat) (v : HNode) : (heapSet h a v).next = h.next := rfl

theorem goodStep_refl (n : Nat) (st : RunState) (hn : n ≤ st.heap.next) : GoodStep n st st :=
  ⟨⟨hn, fun _ _ => rfl⟩, fun _ h => h, id⟩

theorem goodStep_trans {n : Nat} {s t u : RunState} (h1 : GoodStep n s t)
    (h2 : GoodStep n t u) : GoodStep n s u := by
  obtain ⟨⟨hn1, hp1⟩, hm1, hc1⟩ := h1
  obtain ⟨⟨hn2, hp2⟩, hm2, hc2⟩ := h2
  refine ⟨⟨hn2, ?_⟩, fun a ha => hm2 a (hm1 a ha), fun hc => hc2 (hc1 hc)⟩
  intro a ha
  rw [hp2 a ha, hp1 a ha]

theorem goodStep_next {n : Nat} {s t : RunState} (h : GoodStep n s t) : n ≤ t.heap.next :=
  h.1.1

theorem goodM_pure {α : Type} (n : Nat) (a : α) : GoodM n (pure a : UM α) :=
  fun st hn => goodStep_refl n st hn

theorem goodM_throw {α : Type} (n : Nat) (e : DuckErr) : GoodM n (throw e : UM α) :=
  fun st hn => goodStep_refl n st hn

theorem goodM_bind {α β : Type} {n : Nat} {x : UM α} {f : α → UM β}
    (hx : GoodM n x) (hf : ∀ a, GoodM n (f a)) : GoodM n (x >>= f) := by
  intro st hn
  cases hxr : x st with
  | error e st1 =>
      rw [umBind_error x f st e st1 hxr]
      have h1 := hx st hn
      rw [hxr] at h1
      exact h1
  | ok a st1 =>
      rw [umBind_eval x f st a st1 hxr]
      have h1 := hx st hn
      rw [hxr] at h1
      exact goodStep_trans h1 ((hf a) st1 (goodStep_next h1))

theorem goodM_allocNode (n : Nat) (v : HNode) : GoodM n (allocNode v) := by
  intro st hn
  refine ⟨⟨?_, ?_⟩, fun a ha => ha, id⟩
  · show n ≤ st.heap.next + 1
    omega
  · intro a ha
    exact heapGet_alloc_lt st.heap v a (by omega)

theorem scratchRead_run (s : Nat) (st : RunState) :
    ∃ es, scratchRead s st = .ok es st := by
  unfold scratchRead
  rw [umBind_eval (get : UM RunState) _ st st st (umGet_eval st)]
  cases heapGet st.heap s with
  | none => exact ⟨[], rfl⟩
  | some nd =>
      cases nd with
      | objNode es => exact ⟨es, rfl⟩
      | arrNode es => exact ⟨[], rfl⟩
      | instNode c args => exact ⟨[], rfl⟩

theorem goodM_scratchRead (n s : Nat) : GoodM n (scratchRead s) := by
  intro st hn
  obtain ⟨es, h⟩ := scratchRead_run s st
  rw [h]
  exact goodStep_refl n st hn

theorem countConsistent_congr {s t : RunState} (hm : t.memo = s.memo)
    (hb : t.bodyCount = s.bodyCount) (h : countConsistent s) : countConsistent t := by
  intro a
  rw [hm, hb]
  exact h a

theorem goodM_scratchWrite (n s : Nat) (k : String) (v : JVal) (hs : n ≤ s) :
    GoodM n (scratchWrite s k v) := by
  intro st hn
  unfold scratchWrite
  rw [umBind_eval (get : UM RunState) _ st st st (umGet_eval st)]
  cases hg : heapGet st.heap s with
  | none => exact goodStep_refl n st hn
  | some nd =>
      cases nd with
      | arrNode es => exact goodStep_refl n st hn
      | instNode c args => exact goodStep_refl n st hn
      | objNode es =>
          show GoodStep n st
            { st with heap := heapSet st.heap s (.objNode (bagSet es k v)) }
          refine ⟨⟨?_, ?_⟩, fun a ha => ha, ?_⟩
          · rw [heapSet_next]
            exact hn
          · intro a ha
            exact heapGet_set_other st.heap s a _ (by omega)
          · exact countConsistent_congr rfl rfl

theorem goodM_recurseLoop (n : Nat) (rec : JVal → UM JVal) (ff : Bool) (s : Nat)
    (hs : n ≤ s) (hrec : ∀ v, GoodM n (rec v)) :
    ∀ keys, GoodM n (recurseLoop rec ff s keys) := by
  intro keys
  induction keys with
  | nil => exact goodM_pure n true
  | cons k rest ih =>
      rw [recurseLoop]
      apply goodM_bind (goodM_scratchRead n s)
      intro es
      by_cases hb : bagHas es k
      · rw [if_pos hb]
        intro st hn
        rw [umBind_eval (get : UM RunState) _ st st st (umGet_eval st)]
        cases hr : rec (bagGetD es k (.prim .jsUndefined)) st with
        | ok r st' =>
            have hg1 : GoodStep n st st' := by
              have h2 := hrec (bagGetD es k (.prim .jsUndefined)) st hn
              rw [hr] at h2
              exact h2
            dsimp only
            rw [umBind_eval (set st' : UM Unit) _ st () st' rfl]
            exact goodStep_trans hg1
              ((goodM_bind (goodM_scratchWrite n s k r hs) (fun _ => ih)) st'
                (goodStep_next hg1))
        | error e st' =>
            have hg1 : GoodStep n st st' := by
              have h2 := hrec (bagGetD es k (.prim .jsUndefined)) st hn
              rw [hr] at h2
              exact h2
            dsimp only
            rw [umBind_eval (set st' : UM Unit) _ st () st' rfl]
            by_cases hc : (!ff && e.isMissing) = true
            · rw [if_pos hc]
              exact hg1
            · rw [if_neg hc]
              exact hg1
      · rw [if_neg hb]
        exact ih

theorem goodM_defaultsLoop (n : Nat) (dt : DuckMeta) (s : Nat) (hs : n ≤ s) :
    ∀ keys, GoodM n (defaultsLoop dt s keys) := by
  intro keys
  induction keys with
  | nil => exact goodM_pure n ()
  | cons k rest ih =>
      rw [defaultsLoop]
      apply goodM_bind (goodM_scratchRead n s)
      intro es
      dsimp only
      by_cases hb : (!bagHas es k) = true
      · rw [if_pos hb]
        cases propsGet dt.properties (String.intercalate "," dt.defaultKeys) with
        | none => exact goodM_bind (goodM_throw n _) (fun _ => ih)
        | some p => exact goodM_bind (goodM_scratchWrite n s k _ hs) (fun _ => ih)
      · rw [if_neg hb]
        exact goodM_bind (goodM_pure n _) (fun _ => ih)

theorem goodM_convertLoop (n : Nat) (dt : DuckMeta) (trusted : Bool) (ctx : JVal)
    (ff : Bool) (s : Nat) (hs : n ≤ s) :
    ∀ keys, GoodM n (convertLoop dt trusted ctx ff s keys) := by
  intro keys
  induction keys with
  | nil => exact goodM_pure n true
  | cons k rest ih =>
      rw [convertLoop]
      apply goodM_bind (goodM_scratchRead n s)
      intro es
      by_cases hb : bagHas es k
      · rw [if_pos hb]
        cases propsGet dt.properties k with
        | none => exact ih
        | some p =>
            intro st hn
            dsimp only
            rw [umBind_eval (get : UM RunState) _ st st st (umGet_eval st)]
            cases hc : effectiveConvert p st.heap (bagGetD es k (.prim .jsUndefined)) trusted ctx with
            | none =>
                by_cases hf : ff
                · rw [if_pos hf]
                  exact goodStep_refl n st hn
                · rw [if_neg hf]
                  exact goodStep_refl n st hn
            | some c =>
                exact (goodM_bind (goodM_scratchWrite n s k c hs) (fun _ => ih)) st hn
      · rw [if_neg hb]
        exact ih

theorem goodM_applyOneDuckType (n : Nat) (rec : JVal → UM JVal) (trusted : Bool)
    (ctx : JVal) (dt : DuckMeta) (unchained : Bag) (ff : Bool)
    (hrec : ∀ v, GoodM n (rec v)) :
    GoodM n (applyOneDuckType rec trusted ctx dt unchained ff) := by
  intro st hn
  unfold applyOneDuckType
  have halloc : allocNode (.objNode unchained) st =
      .ok st.heap.next { st with heap := (heapAlloc st.heap (.objNode unchained)).1 } := rfl
  rw [umBind_eval _ _ st _ _ halloc]
  have hg1 : GoodStep n st { st with heap := (heapAlloc st.heap (.objNode unchained)).1 } := by
    have h2 := goodM_allocNode n (.objNode unchained) st hn
    rw [halloc] at h2
    exact h2
  set stA : RunState := { st with heap := (heapAlloc st.heap (.objNode unchained)).1 } with hstA
  have hnA : n ≤ stA.heap.next := goodStep_next hg1
  have hsA : n ≤ st.heap.next := hn
  refine goodStep_trans hg1 ?_
  cases findDisallowedKey dt unchained with
  | some key =>
      dsimp only
      by_cases hf : ff
      · rw [if_pos hf]
        exact goodM_throw n _ stA hnA
      · rw [if_neg hf]
        exact goodM_pure n _ stA hnA
  | none =>
      dsimp only
      cases findMissingRequiredKey dt unchained with
      | some key =>
          dsimp only
          by_cases hf : ff
          · rw [if_pos hf]
            exact goodM_throw n _ stA hnA
          · rw [if_neg hf]
            exact goodM_pure n _ stA hnA
      | none =>
          dsimp only
          refine (goodM_bind (goodM_recurseLoop n rec ff st.heap.next hn hrec dt.recurseToKeys)
            ?_) stA hnA
          intro ok1
          by_cases ho : (!ok1) = true
          · rw [if_pos ho]
            exact goodM_pure n none
          · rw [if_neg ho]
            refine goodM_bind (goodM_defaultsLoop n dt st.heap.next hn dt.defaultKeys) ?_
            intro _
            refine goodM_bind (goodM_convertLoop n dt trusted ctx ff st.heap.next hn dt.convertKeys) ?_
            intro ok2
            by_cases ho2 : (!ok2) = true
            · rw [if_pos ho2]
              exact goodM_pure n none
            · rw [if_neg ho2]
              exact goodM_pure n _

theorem goodM_screenOne (n : Nat) (rec : JVal → UM JVal) (trusted : Bool) (ctx : JVal)
    (dt : DuckMeta) (unchained : Bag) (ff : Bool) (hrec : ∀ v, GoodM n (rec v)) :
    GoodM n (screenOne rec trusted ctx dt unchained ff) := by
  unfold screenOne
  apply goodM_bind (goodM_applyOneDuckType n rec trusted ctx dt unchained ff hrec)
  intro s?
  cases s? with
  | none => exact goodM_pure n none
  | some s =>
      apply goodM_bind (goodM_scratchRead n s)
      intro es
      cases dt.toConstructorArguments es trusted ctx with
      | some args => exact goodM_pure n _
      | none =>
          dsimp only
          by_cases hf : ff
          · rw [if_pos hf]
            exact goodM_throw n _
          · rw [if_neg hf]
            exact goodM_pure n _

theorem goodM_tentativelyLoop (n : Nat) (rec : JVal → UM JVal) (trusted : Bool)
    (ctx : JVal) (unchained : Bag) (ff : Bool) (hrec : ∀ v, GoodM n (rec v)) :
    ∀ types acc, GoodM n (tentativelyLoop rec trusted ctx unchained ff acc types) := by
  intro types
  induction types with
  | nil => intro acc; exact goodM_pure n acc
  | cons dt rest ih =>
      intro acc
      rw [tentativelyLoop]
      apply goodM_bind (goodM_screenOne n rec trusted ctx dt unchained ff hrec)
      intro r
      cases r with
      | none => exact ih acc
      | some dta =>
          cases acc with
          | none => exact ih (some dta)
          | some a => exact goodM_throw n _

theorem goodM_processArrEntries (n : Nat) (rec : JVal → UM JVal)
    (hrec : ∀ v, GoodM n (rec v)) :
    ∀ entries, GoodM n (processArrEntries rec entries) := by
  intro entries
  induction entries with
  | nil => exact goodM_pure n []
  | cons kv rest ih =>
      rw [processArrEntries]
      by_cases hk : (kv.1 ≠ "__proto__" && kv.1 ≠ "length") = true
      · rw [if_pos hk]
        apply goodM_bind (hrec kv.2)
        intro r
        apply goodM_bind ih
        intro rs
        exact goodM_pure n _
      · rw [if_neg hk]
        exact ih

theorem goodM_tentativelyApply (n : Nat) (rec : JVal → UM JVal) (trusted : Bool)
    (ctx : JVal) (types : List DuckMeta) (count : Nat) (unchained : Bag)
    (hrec : ∀ v, GoodM n (rec v)) :
    GoodM n (tentativelyApplyDuckTypes rec trusted ctx types count unchained) := by
  unfold tentativelyApplyDuckTypes
  exact goodM_tentativelyLoop n rec trusted ctx unchained (count == 1) hrec types none

theorem goodM_processPojoCore (n : Nat) (rec : JVal → UM JVal) (trusted : Bool)
    (ctx : JVal) (root : DTreeN) (hF : Nat) (entries : List (String × JVal))
    (hrec : ∀ v, GoodM n (rec v)) :
    GoodM n (processPojoCore rec trusted ctx root hF entries) := by
  unfold processPojoCore
  dsimp only
  cases hd : duckHuntN hF root (entries.filter (fun kv => kv.1 ≠ "__proto__")) with
  | error e => exact goodM_throw n e
  | ok ts =>
      apply goodM_bind (goodM_tentativelyApply n rec trusted ctx ts ts.length _ hrec)
      intro app
      cases app with
      | none => exact goodM_throw n _
      | some dta =>
          apply goodM_bind (goodM_allocNode n _)
          intro a
          exact goodM_pure n _

theorem goodM_withMemo (n : Nat) (a : Nat) (body : UM JVal) (hbody : GoodM n body) :
    GoodM n (withMemo a body) := by
  intro st hn
  unfold withMemo
  rw [umBind_eval (get : UM RunState) _ st st st (umGet_eval st)]
  cases hm : memoGet st.memo a with
  | some e =>
      cases e with
      | inProgress => exact goodStep_refl n st hn
      | done r => exact goodStep_refl n st hn
  | none =>
      dsimp only
      set st1 : RunState := ({ st with memo := memoSet st.memo a .inProgress, bodyCount := countIncr st.bodyCount a } : RunState) with hst1
      rw [umBind_eval (set st1 : UM Unit) _ st () st1 rfl]
      have hg1 : GoodStep n st st1 := by
        refine ⟨⟨hn, fun b hb => rfl⟩, ?_, ?_⟩
        · intro b hb
          by_cases hba : b = a
          · rw [hst1]
            show (memoGet (memoSet st.memo a .inProgress) b).isSome = true
            rw [hba, memoGet_set_self]
            rfl
          · show (memoGet (memoSet st.memo a .inProgress) b).isSome = true
            rw [memoGet_set_other st.memo a b _ hba]
            exact hb
        · intro hc b
          show countGet (countIncr st.bodyCount a) b =
            if (memoGet (memoSet st.memo a .inProgress) b).isSome then 1 else 0
          by_cases hba : b = a
          · rw [hba, countGet_incr_self, memoGet_set_self]
            have h0 := hc a
            rw [hm] at h0
            simp at h0
            rw [h0]
            simp
          · rw [countGet_incr_other st.bodyCount a b hba,
              memoGet_set_other st.memo a b _ hba]
            exact hc b
      have hn1 : n ≤ st1.heap.next := goodStep_next hg1
      refine goodStep_trans hg1 ?_
      cases hb : body st1 with
      | error e st2 =>
          rw [umBind_error body _ st1 e st2 hb]
          have h2 := hbody st1 hn1
          rw [hb] at h2
          exact h2
      | ok r st2 =>
          rw [umBind_eval body _ st1 r st2 hb]
          have hg2 : GoodStep n st1 st2 := by
            have h2 := hbody st1 hn1
            rw [hb] at h2
            exact h2
          rw [umBind_eval (get : UM RunState) _ st2 st2 st2 (umGet_eval st2)]
          set st3 : RunState := { st2 with memo := memoSet st2.memo a (.done r) } with hst3
          rw [umBind_eval (set st3 : UM Unit) _ st2 () st3 rfl]
          refine goodStep_trans hg2 ?_
          have hg3 : GoodStep n st2 st3 := by
            refine ⟨⟨?_, fun b hbb => rfl⟩, ?_, ?_⟩
            · show n ≤ st2.heap.next
              exact goodStep_next hg2
            · intro b hbb
              by_cases hba : b = a
              · show (memoGet (memoSet st2.memo a (.done r)) b).isSome = true
                rw [hba, memoGet_set_self]
                rfl
              · show (memoGet (memoSet st2.memo a (.done r)) b).isSome = true
                rw [memoGet_set_other st2.memo a b _ hba]
                exact hbb
            · intro hc2 b
              show countGet st2.bodyCount b =
                if (memoGet (memoSet st2.memo a (.done r)) b).isSome then 1 else 0
              by_cases hba : b = a
              · rw [hba, memoGet_set_self]
                have hsome : (memoGet st2.memo a).isSome = true := by
                  apply hg2.2.1 a
                  show (memoGet st1.memo a).isSome = true
                  rw [hst1]
                  show (memoGet (memoSet st.memo a .inProgress) a).isSome = true
                  rw [memoGet_set_self]
                  rfl
                have h3 := hc2 a
                rw [hsome] at h3
                simp at h3
                rw [h3]
                rfl
              · rw [memoGet_set_other st2.memo a b _ hba]
                exact hc2 b
          exact hg3

theorem goodM_processV (n : Nat) (trusted : Bool) (ctx : JVal) (root : DTreeN)
    (hF : Nat) : ∀ fuel x, GoodM n (processV trusted ctx root hF fuel x) := by
  intro fuel
  induction fuel with
  | zero => intro x; exact goodM_throw n .fuelOut
  | succ f ih =>
      intro x
      rw [processV.eq_def]
      dsimp only
      cases x with
      | prim p => exact goodM_pure n _
      | ref a =>
          dsimp only
          intro st hn
          rw [umBind_eval (get : UM RunState) _ st st st (umGet_eval st)]
          cases hg : heapGet st.heap a with
          | none => exact goodStep_refl n st hn
          | some nd =>
              cases nd with
              | instNode c args => exact goodStep_refl n st hn
              | arrNode entries =>
                  refine goodM_withMemo n a _ ?_ st hn
                  apply goodM_bind (goodM_processArrEntries n _ ih entries)
                  intro es
                  apply goodM_bind (goodM_allocNode n _)
                  intro na
                  exact goodM_pure n _
              | objNode entries =>
                  exact goodM_withMemo n a _
                    (goodM_processPojoCore n _ trusted ctx root hF entries ih) st hn

/-- Registering the same description twice dedupes to registering it
once: adding an identity a second time to the Set is a no-op. -/
theorem dedup_second_add (xs : List Nat) (d : Nat) :
    dedupFirst (xs ++ [d, d]) = dedupFirst (xs ++ [d]) := by
  unfold dedupFirst
  rw [List.foldl_append, List.foldl_append]
  simp only [List.foldl]
  set A := List.foldl (fun acc i => if acc.contains i then acc else acc ++ [i]) [] xs with hA
  by_cases h : d ∈ A <;> simp [h]

/-- Infinity is never strictly below anything. -/
theorem entLT_inf_left (e : EntVal) : entLT .inf e = false := by
  cases e <;> rfl

/-- An entropy is infinite exactly when the partition sizes sum to
zero. -/
theorem entropyAfterPartitions_inf_iff (sizes : List Nat) :
    entropyAfterPartitions sizes = .inf ↔
      sizes.foldl (fun acc n => acc + n) 0 = 0 := by
  unfold entropyAfterPartitions
  by_cases h : sizes.foldl (fun acc n => acc + n) 0 = 0 <;> simp [h]

/-- One search step keeps the linkage between a finite best entropy and
the presence of a best key and partition. -/
theorem reqStep_inv (ts : List DuckMeta) (best : ReqChoice) (key : String)
    (h1 : best.entropyAfter = .inf → best.partitionKey = none ∧ best.partition = none)
    (h2 : best.entropyAfter ≠ .inf → best.partitionKey.isSome ∧ best.partition.isSome) :
    ((reqStep ts best key).entropyAfter = .inf →
      (reqStep ts best key).partitionKey = none ∧ (reqStep ts best key).partition = none) ∧
    ((reqStep ts best key).entropyAfter ≠ .inf →
      (reqStep ts best key).partitionKey.isSome ∧ (reqStep ts best key).partition.isSome) := by
  unfold reqStep
  cases htry : tryPartitionKey ts key with
  | none => exact ⟨h1, h2⟩
  | some pe =>
      by_cases hlt : entLT pe.2 best.entropyAfter
      · simp only [hlt, if_true]
        constructor
        · intro hinf
          exfalso
          rw [show pe.2 = EntVal.inf from hinf] at hlt
          rw [entLT_inf_left] at hlt
          exact Bool.false_ne_true hlt
        · intro _
          exact ⟨rfl, rfl⟩
      · simp only [hlt, if_false]
        exact ⟨h1, h2⟩

/-- The search fold preserves the linkage. -/
theorem reqFold_inv (ts : List DuckMeta) :
    ∀ (keys : List String) (init : ReqChoice),
      (init.entropyAfter = .inf → init.partitionKey = none ∧ init.partition = none) →
      (init.entropyAfter ≠ .inf → init.partitionKey.isSome ∧ init.partition.isSome) →
      (((keys.foldl (reqStep ts) init).entropyAfter = .inf →
        (keys.foldl (reqStep ts) init).partitionKey = none ∧
        (keys.foldl (reqStep ts) init).partition = none) ∧
       ((keys.foldl (reqStep ts) init).entropyAfter ≠ .inf →
        (keys.foldl (reqStep ts) init).partitionKey.isSome ∧
        (keys.foldl (reqStep ts) init).partition.isSome)) := by
  intro keys
  induction keys with
  | nil => intro init h1 h2; exact ⟨h1, h2⟩
  | cons k rest ih =>
      intro init h1 h2
      simp only [List.foldl]
      have hstep := reqStep_inv ts init k h1 h2
      exact ih (reqStep ts init k) hstep.1 hstep.2

/-- The computed required-key choice has a key and a partition exactly
when its best entropy is finite. -/
theorem reqChoice_linked (ts : List DuckMeta) (used : List String) :
    ((reqChoiceAt ts used).entropyAfter = .inf →
      (reqChoiceAt ts used).partitionKey = none ∧ (reqChoiceAt ts used).partition = none) ∧
    ((reqChoiceAt ts used).entropyAfter ≠ .inf →
      (reqChoiceAt ts used).partitionKey.isSome ∧ (reqChoiceAt ts used).partition.isSome) := by
  unfold reqChoiceAt partitionOnRequiredKey
  exact reqFold_inv ts _ ⟨.inf, none, none⟩ (fun _ => ⟨rfl, rfl⟩) (fun h => absurd rfl h)

/-- A nonempty may-have map always comes with a finite entropy, since
the full candidate count is one of the partition sizes. -/
theorem optChoice_fin (ts : List DuckMeta) (used : List String)
    (hc : 0 < ts.length)
    (hk : (optEntropyAt ts used).keyPartitionMap.isSome = true) :
    (optEntropyAt ts used).entropyAfter ≠ .inf := by
  unfold optEntropyAt partitionOnOptionalKeys at hk ⊢
  by_cases he : (optKeyMap ts ((keysForTypes ts).2.filter (fun k => !used.contains k))).isEmpty
  · rw [if_pos he] at hk
    simp at hk
  · rw [if_neg he] at hk ⊢
    dsimp only
    rw [Ne, entropyAfterPartitions_inf_iff, List.foldl_append]
    simp only [List.foldl]
    omega

/-- C7 counterexample: a catalogue of four shapes where the best
required-key partition has strictly positive information gain (its
entropy is strictly below the entropy-before and is not equal to it),
yet the builder still attempts the optional-only may-have partition and
prefers it.  Under the claim, the may-have partition may be attempted
only when the best required-key gain is zero. -/
theorem c7_counterexample :
    (chooseSplit exTypes []).isMayHave = true ∧
    (reqChoiceAt exTypes []).partition.isSome = true ∧
    entLT (reqChoiceAt exTypes []).entropyAfter (entropyBeforeRep exTypes.length) = true ∧
    (reqChoiceAt exTypes []).entropyAfter ≠ entropyBeforeRep exTypes.length := by
  refine ⟨rfl, rfl, rfl, by decide⟩

/-- C7 (amended): the builder computes the required-key partition and
the optional-only may-have partition unconditionally; it prefers the
may-have dispatch exactly when that partition exists and achieves
strictly lower resulting entropy (strictly greater information gain)
than the best required-key partition, and it falls back to a leaf
evaluated by linear scan exactly when no required-key partition exists
and the may-have dispatch was not preferred. -/
theorem c7_mayhave_preference (ts : List DuckMeta) (used : List String)
    (hc : 2 ≤ ts.length) :
    ((chooseSplit ts used).isMayHave = true ↔
      ((optEntropyAt ts used).keyPartitionMap.isSome = true ∧
       entLT (optEntropyAt ts used).entropyAfter (reqChoiceAt ts used).entropyAfter = true)) ∧
    ((chooseSplit ts used).isLeaf = true ↔
      ((reqChoiceAt ts used).partition = none ∧
       ¬((optEntropyAt ts used).keyPartitionMap.isSome = true ∧
         entLT (optEntropyAt ts used).entropyAfter (reqChoiceAt ts used).entropyAfter = true))) := by
  have hlen : ¬ (ts.length ≤ 1) := by omega
  have hlinked := reqChoice_linked ts used
  unfold chooseSplit
  simp only [if_neg hlen]
  by_cases hpick : (optEntropyAt ts used).keyPartitionMap.isSome = true ∧
      entLT (optEntropyAt ts used).entropyAfter (reqChoiceAt ts used).entropyAfter = true
  · obtain ⟨hk, hlt⟩ := hpick
    obtain ⟨m, hm⟩ := Option.isSome_iff_exists.mp hk
    simp only [hm, hk, hlt, Bool.and_self, if_true]
    simp [NodeChoice.isMayHave, NodeChoice.isLeaf, hm, hk, hlt]
  · have hcond : ((optEntropyAt ts used).keyPartitionMap.isSome &&
        entLT (optEntropyAt ts used).entropyAfter (reqChoiceAt ts used).entropyAfter) = false := by
      by_contra hb
      rw [Bool.not_eq_false, Bool.and_eq_true] at hb
      exact hpick hb
    simp only [hcond, Bool.false_eq_true, if_false]
    cases hp : (reqChoiceAt ts used).partition with
    | some p =>
        have hkey := (hlinked.2 (by
          intro hinf
          have := (hlinked.1 hinf).2
          rw [hp] at this
          exact Option.noConfusion this)).1
        obtain ⟨k, hk2⟩ := Option.isSome_iff_exists.mp hkey
        simp only [hp, hk2]
        simp [NodeChoice.isMayHave, NodeChoice.isLeaf, hpick]
    | none =>
        have hinf : (reqChoiceAt ts used).entropyAfter = .inf := by
          by_contra hni
          have := (hlinked.2 hni).2
          rw [hp] at this
          exact Bool.noConfusion this
        have hkey : (reqChoiceAt ts used).partitionKey = none := (hlinked.1 hinf).1
        cases hkm : (optEntropyAt ts used).keyPartitionMap with
        | some m =>
            exfalso
            have hfin := optChoice_fin ts used (by omega) (by simp [hkm])
            have : entLT (optEntropyAt ts used).entropyAfter
                (reqChoiceAt ts used).entropyAfter = true := by
              rw [hinf]
              cases hoe : (optEntropyAt ts used).entropyAfter with
              | fin e => rfl
              | inf => exact absurd hoe hfin
            exact hpick ⟨by simp [hkm], this⟩
        | none =>
            simp only [hp, hkey, hkm]
            simp [NodeChoice.isMayHave, NodeChoice.isLeaf, hp, hkm]

/-- Witness for C7 at the concrete four-shape catalogue: the may-have
iff instantiates and its condition evaluates to true there. -/
theorem c7_mayhave_preference_witness :
    (2 ≤ exTypes.length) ∧ ((chooseSplit exTypes []).isMayHave = true ↔
      ((optEntropyAt exTypes []).keyPartitionMap.isSome = true ∧
       entLT (optEntropyAt exTypes []).entropyAfter (reqChoiceAt exTypes []).entropyAfter = true)) :=
  ⟨by decide, (c7_mayhave_preference exTypes [] (by decide)).1⟩

/-- The candidate loop of tentativelyApplyDuckTypes, characterized
against the sequential screening outcomes: whatever the pending first
match, the loop returns what `loopSpecVal` dictates, and any ambiguity
error it raises names the pending match and the next full match. -/
theorem tentativelyLoop_char (rec : JVal → UM JVal) (trusted : Bool) (ctx : JVal)
    (unchained : Bag) (ff : Bool) :
    ∀ (types : List DuckMeta) (st : RunState) (outs : List (Option (DuckMeta × List JVal)))
      (st' : RunState) (acc : Option (DuckMeta × List JVal)),
      screenOutcomes rec trusted ctx unchained ff types st = .ok outs st' →
      ((∀ v, loopSpecVal acc (outs.filterMap id) = .inl v →
        tentativelyLoop rec trusted ctx unchained ff acc types st = .ok v st') ∧
       (∀ e, loopSpecVal acc (outs.filterMap id) = .inr e →
        ∃ stE, tentativelyLoop rec trusted ctx unchained ff acc types st = .error e stE)) := by
  intro types
  induction types with
  | nil =>
      intro st outs st' acc h
      unfold screenOutcomes at h
      simp only [pure, EStateM.pure] at h
      cases h
      constructor
      · intro v hv
        cases acc with
        | none =>
            simp only [List.filterMap, loopSpecVal] at hv
            cases hv
            rfl
        | some a =>
            simp only [List.filterMap, loopSpecVal] at hv
            cases hv
            rfl
      · intro e he
        cases acc with
        | none => simp [List.filterMap, loopSpecVal] at he
        | some a => simp [List.filterMap, loopSpecVal] at he
  | cons dt rest ih =>
      intro st outs st' acc h
      unfold screenOutcomes at h
      obtain ⟨r, st1, hscreen, h2⟩ := (umBind_ok _ _ _ _ _).mp h
      obtain ⟨rs, st2, hrest, h3⟩ := (umBind_ok _ _ _ _ _).mp h2
      simp only [pure, EStateM.pure] at h3
      cases h3
      have hloop : ∀ acc2, tentativelyLoop rec trusted ctx unchained ff acc2 (dt :: rest) st =
          (match r, acc2 with
           | some dta, some dt0 =>
               (throw (DuckErr.ambiguous dt0.1.className dta.1.className) :
                 UM (Option (DuckMeta × List JVal)))
           | some dta, none => tentativelyLoop rec trusted ctx unchained ff (some dta) rest
           | none, _ => tentativelyLoop rec trusted ctx unchained ff acc2 rest) st1 := by
        intro acc2
        rw [tentativelyLoop]
        exact umBind_eval _ _ st r st1 hscreen
      cases r with
      | none =>
          have hfm : (List.filterMap id ((none : Option (DuckMeta × List JVal)) :: rs)) =
              rs.filterMap id := by simp
          constructor
          · intro v hv
            rw [hloop acc]
            exact (ih st1 rs _ acc hrest).1 v (by rw [hfm] at hv; exact hv)
          · intro e he
            obtain ⟨stE, hE⟩ := (ih st1 rs _ acc hrest).2 e (by rw [hfm] at he; exact he)
            exact ⟨stE, by rw [hloop acc]; exact hE⟩
      | some dta =>
          have hfm : (List.filterMap id (some dta :: rs)) = dta :: rs.filterMap id := by simp
          cases acc with
          | none =>
              constructor
              · intro v hv
                rw [hloop none]
                rw [hfm] at hv
                exact (ih st1 rs _ (some dta) hrest).1 v hv
              · intro e he
                rw [hfm] at he
                obtain ⟨stE, hE⟩ := (ih st1 rs _ (some dta) hrest).2 e he
                exact ⟨stE, by rw [hloop none]; exact hE⟩
          | some a =>
              constructor
              · intro v hv
                rw [hfm] at hv
                simp [loopSpecVal] at hv
              · intro e he
                rw [hfm] at he
                simp only [loopSpecVal] at he
                cases he
                refine ⟨st1, ?_⟩
                rw [hloop (some a)]
                rfl

/-- C1: the exactly-one-match law.  Relative to the sequential
screening outcomes of the candidates (hypothesis: the screenings
themselves raise no hard error), the call returns a match exactly when
exactly one candidate's full screening (key-set check, required-key
check, recursive sub-classification, conversions, argument-building)
succeeds: zero full matches yield the no-match result (which the caller
turns into MissingDuckError), the single full match is returned, and
the moment a second candidate fully matches the call raises the fatal
ambiguity DuckError naming both shapes — it is never suppressed in
favor of either.  Conversely a returned match implies its screening was
the only success. -/
theorem c1_exactly_one_match (rec : JVal → UM JVal) (trusted : Bool) (ctx : JVal)
    (unchained : Bag) (types : List DuckMeta) (count : Nat) (st : RunState)
    (outs : List (Option (DuckMeta × List JVal))) (st' : RunState)
    (h : screenOutcomes rec trusted ctx unchained (count == 1) types st = .ok outs st') :
    (outs.filterMap id = [] →
      tentativelyApplyDuckTypes rec trusted ctx types count unchained st = .ok none st') ∧
    (∀ x, outs.filterMap id = [x] →
      tentativelyApplyDuckTypes rec trusted ctx types count unchained st = .ok (some x) st') ∧
    (∀ x y rest2, outs.filterMap id = x :: y :: rest2 →
      ∃ stE, tentativelyApplyDuckTypes rec trusted ctx types count unchained st =
        .error (.ambiguous x.1.className y.1.className) stE) ∧
    (∀ w st2, tentativelyApplyDuckTypes rec trusted ctx types count unchained st =
        .ok (some w) st2 → outs.filterMap id = [w]) := by
  have hchar := tentativelyLoop_char rec trusted ctx unchained (count == 1) types st outs st' none h
  unfold tentativelyApplyDuckTypes
  refine ⟨?_, ?_, ?_, ?_⟩
  · intro hnil
    apply hchar.1
    rw [hnil]
    rfl
  · intro x hx
    apply hchar.1
    rw [hx]
    rfl
  · intro x y rest2 hxy
    apply hchar.2
    rw [hxy]
    rfl
  · intro w st2 hok
    cases hs : outs.filterMap id with
    | nil =>
        have hres := hchar.1 none (by rw [hs]; rfl)
        rw [hres] at hok
        simp at hok
    | cons x tail =>
        cases tail with
        | nil =>
            have hres := hchar.1 (some x) (by rw [hs]; rfl)
            rw [hres] at hok
            simp only [EStateM.Result.ok.injEq, Option.some.injEq] at hok
            rw [hok.1]
        | cons y tail2 =>
            obtain ⟨stE, hE⟩ := hchar.2 (.ambiguous x.1.className y.1.className) (by rw [hs]; rfl)
            rw [hE] at hok
            simp at hok

/-- Witness for C1: a single point-like candidate whose screening
succeeds; the evaluation returns exactly that match. -/
theorem c1_exactly_one_match_witness :
    (screenOutcomes (fun v => pure v) false uctx [("v", .prim (.num 3))] (1 == 1) [metaOf rawPt]
        (initState emptyHeap) =
      .ok [some (metaOf rawPt, [.prim (.num 3)])]
        { heap := { nodes := [(0, .objNode [("v", .prim (.num 3))])], next := 1 },
          memo := [], bodyCount := [] }) ∧
    tentativelyApplyDuckTypes (fun v => pure v) false uctx [metaOf rawPt] 1 [("v", .prim (.num 3))]
        (initState emptyHeap) =
      .ok (some (metaOf rawPt, [.prim (.num 3)]))
        { heap := { nodes := [(0, .objNode [("v", .prim (.num 3))])], next := 1 },
          memo := [], bodyCount := [] } :=
  ⟨rfl,
    (c1_exactly_one_match (fun v => pure v) false uctx [("v", .prim (.num 3))] [metaOf rawPt] 1
      (initState emptyHeap) [some (metaOf rawPt, [.prim (.num 3)])]
      { heap := { nodes := [(0, .objNode [("v", .prim (.num 3))])], next := 1 },
        memo := [], bodyCount := [] } rfl).2.1 (metaOf rawPt, [.prim (.num 3)]) rfl⟩

/-- C8: during candidate evaluation, an error raised while recursively
classifying a field's value is caught and downgraded to a failure of
just this candidate (result null/none) exactly when it is a
MissingDuckError and there is failover (failFast is false, i.e. the
candidate leaf holds more than one type); any other error — such as the
cycle DuckError — and any error at all in failFast mode propagates
immediately out of the candidate evaluation and aborts the call. -/
theorem c8_recursion_error_scoping (rec : JVal → UM JVal) (trusted : Bool) (ctx : JVal)
    (dt : DuckMeta) (unchained : Bag) (failFast : Bool) (e : DuckErr) (k : String)
    (st : RunState)
    (hallow : findDisallowedKey dt unchained = none)
    (hreq : findMissingRequiredKey dt unchained = none)
    (hrk : dt.recurseToKeys = [k])
    (hhas : bagHas unchained k = true)
    (hrec : ∀ st1, rec (bagGetD unchained k (.prim .jsUndefined)) st1 = .error e st1) :
    (failFast = false → e.isMissing = true →
      applyOneDuckType rec trusted ctx dt unchained failFast st =
        .ok none { st with heap := (heapAlloc st.heap (.objNode unchained)).1 }) ∧
    ((e.isMissing = false ∨ failFast = true) →
      applyOneDuckType rec trusted ctx dt unchained failFast st =
        .error e { st with heap := (heapAlloc st.heap (.objNode unchained)).1 }) := by
  set stA : RunState := { st with heap := (heapAlloc st.heap (.objNode unchained)).1 } with hstA
  have halloc : allocNode (.objNode unchained) st = .ok st.heap.next stA := rfl
  have hg : heapGet stA.heap st.heap.next = some (.objNode unchained) := by
    rw [hstA]
    unfold heapGet heapAlloc
    simp
  have hscr : scratchRead st.heap.next stA = .ok unchained stA := by
    unfold scratchRead
    rw [umBind_eval (get : UM RunState) _ stA stA stA (umGet_eval stA)]
    rw [hg]
    rfl
  have hloopBase : recurseLoop rec failFast st.heap.next [k] stA =
      ((if !failFast && e.isMissing then (pure false : UM Bool) else throw e) : UM Bool) stA := by
    rw [recurseLoop]
    rw [umBind_eval _ _ stA unchained stA hscr]
    simp only [hhas, if_true]
    rw [umBind_eval (get : UM RunState) _ stA stA stA (umGet_eval stA)]
    rw [hrec stA]
    rfl
  have happly : applyOneDuckType rec trusted ctx dt unchained failFast st =
      (do
        let ok1 ← recurseLoop rec failFast st.heap.next [k]
        if !ok1 then pure (none : Option Nat)
        else do
          defaultsLoop dt st.heap.next dt.defaultKeys
          let ok2 ← convertLoop dt trusted ctx failFast st.heap.next dt.convertKeys
          if !ok2 then pure none
          else pure (some st.heap.next)) stA := by
    unfold applyOneDuckType
    rw [umBind_eval _ _ st _ _ halloc]
    rw [hallow, hreq, hrk]
  constructor
  · intro hff hmiss
    rw [happly]
    have hcond : (!failFast && e.isMissing) = true := by rw [hff, hmiss]; rfl
    rw [umBind_eval _ _ stA false stA (by rw [hloopBase, hcond]; rfl)]
    rfl
  · intro hor
    rw [happly]
    have hcond : (!failFast && e.isMissing) = false := by
      cases hor with
      | inl h1 => rw [h1]; simp
      | inr h2 => rw [h2]; rfl
    apply umBind_error
    rw [hloopBase, hcond]
    rfl

/-- Witness for C8: with failover present, a MissingDuckError thrown by
the recursion makes just this candidate fail (result none). -/
theorem c8_recursion_error_scoping_witness :
    applyOneDuckType (fun _ => throw (.missingDuck "inner")) false uctx (metaOf rawSelfObj)
        [("a", .prim (.num 1))] false (initState emptyHeap) =
      .ok none { initState emptyHeap with
                 heap := (heapAlloc emptyHeap (.objNode [("a", .prim (.num 1))])).1 } :=
  (c8_recursion_error_scoping (fun _ => throw (.missingDuck "inner")) false uctx
    (metaOf rawSelfObj) [("a", .prim (.num 1))] false (.missingDuck "inner") "a"
    (initState emptyHeap) rfl rfl rfl rfl (fun _ => rfl)).1 rfl rfl

/-- C9: registering the identical shape description twice yields a
catalogue with the same classification behavior as registering it once:
the whole pond pipeline (normalization, tree building, every
classification call in either trust mode, including its errors) is
identical, so in particular a duplicated shape never produces an
ambiguity error the single registration would not produce. -/
theorem c9_idempotent_registration (env : Nat → RawDuckType) (base : List Nat)
    (d : Nat) (trusted : Bool) (ctx : JVal) (bF hF pF : Nat) (x : JVal)
    (st : RunState) :
    pondRun env (withTypesIds base [d, d]) trusted ctx bF hF pF x st =
      pondRun env (withTypesIds base [d]) trusted ctx bF hF pF x st := by
  rw [show withTypesIds base [d, d] = withTypesIds base [d] from dedup_second_add base d]

/-- C5: the cycle law.  First conjunct: whenever the walker reaches a
compound value (array or plain object) whose memo entry is the
in-progress breadcrumb — i.e. the value is re-entered while its own
processing is still under way — the call fails immediately with the
fatal cycle DuckError, at every remaining fuel level, so a cycle is
never silently unrolled.  Second and third conjuncts: a self-referential
array and a self-referential plain object raise the cycle error for
every fuel greater than one, i.e. regardless of how much processing
budget remains. -/
theorem c5_cycle_law :
    (∀ (trusted : Bool) (ctx : JVal) (root : DTreeN) (hF fuel a : Nat) (st : RunState)
       (es : List (String × JVal)),
      memoGet st.memo a = some .inProgress →
      (heapGet st.heap a = some (.arrNode es) ∨ heapGet st.heap a = some (.objNode es)) →
      processV trusted ctx root hF (fuel + 1) (.ref a) st = .error .cycle st) ∧
    (∀ (n1 : Nat) (root : DTreeN) (hF : Nat),
      resultErr (processV false uctx root hF (n1 + 2) (.ref 0) (initState selfArrHeap)) =
        some .cycle) ∧
    (∀ n1 : Nat,
      resultErr (processV false uctx (.leaf [metaOf rawSelfObj]) 1 (n1 + 2) (.ref 0)
        (initState selfObjHeap)) = some .cycle) := by
  refine ⟨?_, fun n1 root hF => rfl, fun n1 => rfl⟩
  intro trusted ctx root hF fuel a st es hmemo hnode
  rw [processV.eq_def]
  dsimp only
  rw [umBind_eval (get : UM RunState) _ st st st (umGet_eval st)]
  cases hnode with
  | inl h =>
      rw [h]
      dsimp only
      unfold withMemo
      rw [umBind_eval (get : UM RunState) _ st st st (umGet_eval st)]
      rw [hmemo]
      rfl
  | inr h =>
      rw [h]
      dsimp only
      unfold withMemo
      rw [umBind_eval (get : UM RunState) _ st st st (umGet_eval st)]
      rw [hmemo]
      rfl

/-- Witness for C5 at a concrete in-progress state over the
self-referential array heap. -/
theorem c5_cycle_law_witness :
    processV false uctx (DTreeN.leaf []) 1 1 (.ref 0)
        { heap := selfArrHeap, memo := [(0, .inProgress)], bodyCount := [(0, 1)] } =
      .error .cycle
        { heap := selfArrHeap, memo := [(0, .inProgress)], bodyCount := [(0, 1)] } :=
  c5_cycle_law.1 false uctx (DTreeN.leaf []) 1 0 0
    { heap := selfArrHeap, memo := [(0, .inProgress)], bodyCount := [(0, 1)] }
    [("0", .ref 0)] rfl (Or.inl rfl)

/-- C6: referential sharing.  First conjunct: in every run starting
from a consistent state (in particular a fresh call), every compound
value body — the only place the matched shape and its buildArguments
are applied to that value — is entered at most once per address.
Second conjunct: a value already processed (memo done) returns the
identical recorded result, unchanged state, no reprocessing.  Third
conjunct, concretely: classifying a pair object whose two fields
reference the same inner object yields an instance whose two
constructor arguments are the identical reference, and the body-entry
count of the shared inner object is exactly one. -/
theorem c6_processed_once :
    (∀ (trusted : Bool) (ctx : JVal) (root : DTreeN) (hF fuel : Nat) (x : JVal)
       (st : RunState), countConsistent st →
      ∀ a, countGet (resultState (processV trusted ctx root hF fuel x st)).bodyCount a ≤ 1) ∧
    (∀ (trusted : Bool) (ctx : JVal) (root : DTreeN) (hF fuel a : Nat) (st : RunState)
       (r : JVal) (es : List (String × JVal)),
      memoGet st.memo a = some (.done r) →
      (heapGet st.heap a = some (.arrNode es) ∨ heapGet st.heap a = some (.objNode es)) →
      processV trusted ctx root hF (fuel + 1) (.ref a) st = .ok r st) ∧
    (runVal envShare [0, 1] false uctx (.ref 0) shareHeap = some (.ref 5) ∧
     runHeapAt 5 envShare [0, 1] false uctx (.ref 0) shareHeap =
       some (.instNode 6 [.ref 4, .ref 4]) ∧
     runCountAt 1 envShare [0, 1] false uctx (.ref 0) shareHeap = some 1) := by
  refine ⟨?_, ?_, rfl, rfl, rfl⟩
  · intro trusted ctx root hF fuel x st hc a
    have h := goodM_processV 0 trusted ctx root hF fuel x st (Nat.zero_le _)
    have hc2 := h.2.2 hc a
    rw [hc2]
    by_cases hs : (memoGet (resultState (processV trusted ctx root hF fuel x st)).memo a).isSome
    · rw [if_pos hs]
    · rw [if_neg hs]
      omega
  · intro trusted ctx root hF fuel a st r es hmemo hnode
    rw [processV.eq_def]
    dsimp only
    rw [umBind_eval (get : UM RunState) _ st st st (umGet_eval st)]
    cases hnode with
    | inl h =>
        rw [h]
        dsimp only
        unfold withMemo
        rw [umBind_eval (get : UM RunState) _ st st st (umGet_eval st)]
        rw [hmemo]
        rfl
    | inr h =>
        rw [h]
        dsimp only
        unfold withMemo
        rw [umBind_eval (get : UM RunState) _ st st st (umGet_eval st)]
        rw [hmemo]
        rfl

/-- Witness for C6: a fresh call state is consistent and the count
bound instantiates. -/
theorem c6_processed_once_witness :
    countConsistent (initState shareHeap) ∧
    countGet (resultState (processV false uctx (DTreeN.leaf []) 1 1 (.prim .jsNull)
      (initState shareHeap))).bodyCount 0 ≤ 1 :=
  ⟨fun _ => rfl,
    c6_processed_once.1 false uctx (DTreeN.leaf []) 1 1 (.prim .jsNull)
      (initState shareHeap) (fun _ => rfl) 0⟩

/-- C10: classification never mutates its input.  Every heap node at an
address allocated before the call (the entire input object graph) holds
the same value after processing as before, whether the call succeeds or
errors; processing only allocates at and above the old next-address
watermark (scratch copies and fresh outputs). -/
theorem c10_no_input_mutation (trusted : Bool) (ctx : JVal) (root : DTreeN)
    (hF fuel : Nat) (x : JVal) (st : RunState) :
    st.heap.next ≤ (resultState (processV trusted ctx root hF fuel x st)).heap.next ∧
    (∀ a, a < st.heap.next →
      heapGet (resultState (processV trusted ctx root hF fuel x st)).heap a =
        heapGet st.heap a) := by
  have h := goodM_processV st.heap.next trusted ctx root hF fuel x st (le_refl _)
  exact ⟨h.1.1, h.1.2⟩

/-- Witness for C10 on the concrete shared-pair heap at address 0. -/
theorem c10_no_input_mutation_witness :
    0 < (initState shareHeap).heap.next ∧
    heapGet (resultState (processV false uctx (DTreeN.leaf []) 4 4 (.ref 0)
      (initState shareHeap))).heap 0 = heapGet (initState shareHeap).heap 0 :=
  ⟨by decide,
    (c10_no_input_mutation false uctx (DTreeN.leaf []) 4 4 (.ref 0)
      (initState shareHeap)).2 0 (by decide)⟩

end Unduck
